import Mathlib

/-!
Shallow embedding of wpiutil's DataLog storage engine
(src/wpiutil/src/main/native/cpp/DataLog.cpp).

Files are modelled as total byte maps `Nat → Nat`; machine integers are `Nat`
with explicit `% 2^w` where the C++ code can overflow or truncate.  The two OS
calls whose success matters (ftruncate and mmap) are modelled by two boolean
oracle parameters `tOk` and `mOk` passed to every operation that can reach
them.  In this source every mapping is created at file offset 0
(DataLog.cpp:505), so index `i` of the mapping is byte `i` of the file.
-/

namespace WpiLog

/-- A byte buffer: list of byte values (each < 256 once produced by the code). -/
abbrev Bytes := List Nat

/-- `SIZE_MAX` for 64-bit `size_t`. -/
def SIZEMAX : Nat := 2 ^ 64 - 1

def kTimestampSize : Nat := 8
def kHeaderSize : Nat := 4096

/-- DataLog.cpp:114, `kTimestampSize + 8 * 2`. -/
def kLargePointerRecordSize : Nat := kTimestampSize + 8 * 2

/-- DataLog.cpp:116, `kTimestampSize + 4 * 2`. -/
def kSmallPointerRecordSize : Nat := kTimestampSize + 4 * 2

/-- `size_t` subtraction `a - b` (wraps modulo `2^64`), for `a b < 2^64`. -/
def sub64 (a b : Nat) : Nat := (a + 2 ^ 64 - b % 2 ^ 64) % 2 ^ 64

/-- Little-endian encoding of `v` into `w` bytes
(`wpi::support::endian::write64le` / `write32le`; values ≥ `2^(8w)` are
truncated, as the C++ stores the low bytes only). -/
def toLE (w v : Nat) : Bytes := (List.range w).map (fun i => v / 256 ^ i % 256)

/-- Little-endian decoding (`read64le` / `read32le`). -/
def fromLE (b : Bytes) : Nat := b.foldr (fun x acc => x + 256 * acc) 0

/-- Read `len` bytes of a file at byte position `pos`. -/
def readBytes (c : Nat → Nat) (pos len : Nat) : Bytes :=
  (List.range len).map (fun i => c (pos + i))

/-- memcpy `b` into a file at byte position `pos`. -/
def writeBytes (c : Nat → Nat) (pos : Nat) (b : Bytes) : Nat → Nat :=
  fun i => if pos ≤ i ∧ i < pos + b.length then b.getD (i - pos) 0 else c i

/-- The state of a `MappedFile` (DataLog.cpp:130): whether a live mapping
exists and its length.  Mappings are always created at file offset 0. -/
structure MappedFile where
  mapped : Bool
  size : Nat
  deriving Repr, DecidableEq

/-- `DataLogImpl::FileInfo`: one backing file, its logical write position,
current size, mapping and growth policy, plus the byte contents of the file. -/
structure FileInfo where
  readOnly : Bool
  writePos : Nat
  fileSize : Nat
  mapOffset : Nat
  mapGrowSize : Nat
  maxGrowSize : Nat
  map : MappedFile
  contents : Nat → Nat

/-- Result of `FileInfo::GetMappedOffset`: the returned offset, whether the
error-code out parameter was set, and the updated `FileInfo`. -/
structure GmoResult where
  res : Nat
  ec : Bool
  fi : FileInfo

/-- The condition of the easy case of `GetMappedOffset` (DataLog.cpp:480):
`map && pos >= mapOffset && (pos + len - mapOffset) <= map.size()`. -/
def covered (fi : FileInfo) (pos len : Nat) : Prop :=
  fi.map.mapped = true ∧ fi.mapOffset ≤ pos ∧
    pos + len - fi.mapOffset ≤ fi.map.size

instance (fi : FileInfo) (pos len : Nat) : Decidable (covered fi pos len) := by
  unfold covered
  infer_instance

/-- The not-read-only block of `GetMappedOffset` (DataLog.cpp:483-501):
round the needed size up to a multiple of `mapGrowSize`, extend `fileSize`
when it grew, and double `mapGrowSize` clamped at `maxGrowSize`. -/
def grow (fi : FileInfo) (pos len : Nat) : FileInfo :=
  let size := (pos + len + fi.mapGrowSize - 1) / fi.mapGrowSize *
    fi.mapGrowSize
  let fi' := if fi.fileSize < size then { fi with fileSize := size } else fi
  if fi'.mapGrowSize < fi'.maxGrowSize then
    { fi' with mapGrowSize :=
        if fi'.maxGrowSize < fi'.mapGrowSize * 2 then fi'.maxGrowSize
        else fi'.mapGrowSize * 2 }
  else fi'

/-- `DataLogImpl::FileInfo::GetMappedOffset` (DataLog.cpp:475-509).
`tOk` models success of the ftruncate/_chsize_s call: the source only prints
a diagnostic on its failure (DataLog.cpp:498-499), so `tOk` does not reach
`ec`.  `mOk` models success of the remap; its failure sets `ec` and returns
`SIZE_MAX` (DataLog.cpp:506). -/
def FileInfo.getMappedOffset (fi : FileInfo) (pos len : Nat) (tOk mOk : Bool) :
    GmoResult :=
  if covered fi pos len then
    ⟨pos - fi.mapOffset, false, fi⟩
  else
    -- ftruncate(fd, fileSize): on failure (¬tOk) only perror is called
    let fi1 := if fi.readOnly = false then grow fi pos len else fi
    if mOk then
      ⟨pos - fi.mapOffset, false, { fi1 with map := ⟨true, fi1.fileSize⟩ }⟩
    else
      ⟨SIZEMAX, true, { fi1 with map := ⟨false, fi1.fileSize⟩ }⟩

/-- `DataLogImpl::FileInfo::Read` (DataLog.cpp:511-517): returns a view of
exactly `len` bytes on success, the empty view when the error code was set. -/
def FileInfo.read (fi : FileInfo) (pos len : Nat) (tOk mOk : Bool) :
    Bytes × FileInfo :=
  let r := fi.getMappedOffset pos len tOk mOk
  if r.ec then ([], r.fi)
  else (readBytes r.fi.contents r.res len, r.fi)

/-- `DataLogImpl::FileInfo::Write` (DataLog.cpp:519-524): memcpy through the
mapping; a set error code makes it silently write nothing. -/
def FileInfo.write (fi : FileInfo) (pos : Nat) (data : Bytes)
    (tOk mOk : Bool) : FileInfo :=
  let r := fi.getMappedOffset pos data.length tOk mOk
  if r.ec then r.fi
  else { r.fi with contents := writeBytes r.fi.contents r.res data }

/-- `DataLogImpl`: the log facade over the time file and the data file. -/
structure DataLogImpl where
  dataType : Bytes
  dataLayout : Bytes
  recordSize : Nat
  fixedSize : Bool
  gapData : Bytes
  lastTimestamp : Nat
  checkMonotonic : Bool
  periodicFlush : Nat
  periodicFlushCount : Nat
  time : FileInfo
  data : FileInfo

/-- Modelled from the spec: `size()` is declared in the header wpi/DataLog.h,
which is not under src/; spec §4.3 defines it as
`(time.writePos − 4096) / recordSize`. -/
def DataLogImpl.size (log : DataLogImpl) : Nat :=
  (log.time.writePos - kHeaderSize) / log.recordSize

/-- Where the writable pointer returned by `AppendRawStart` points: a byte
position in the time file (fixed-size records) or in the data file. -/
inductive AppendPtr where
  | timeP (pos : Nat)
  | dataP (pos : Nat)
  deriving Repr, DecidableEq

/-- ASCII bytes of a string literal (used for the fixed JSON key names). -/
def strB (s : String) : Bytes := s.toList.map Char.toNat

/-- Lowercase hex digit byte. -/
def hexDigit (n : Nat) : Nat := if n < 10 then 48 + n else 87 + n

/-- JSON string escaping of one byte, as `wpi::json::dump` performs it
(nlohmann escaping; bytes ≥ 0x20 other than quote and backslash pass
through). -/
def escByte (b : Nat) : Bytes :=
  if b = 34 then [92, 34]
  else if b = 92 then [92, 92]
  else if b = 8 then [92, 98]
  else if b = 9 then [92, 116]
  else if b = 10 then [92, 110]
  else if b = 12 then [92, 102]
  else if b = 13 then [92, 114]
  else if b < 32 then [92, 117, 48, 48, hexDigit (b / 16), hexDigit (b % 16)]
  else [b]

/-- JSON string escaping of a byte string. -/
def escape (s : Bytes) : Bytes := (s.map escByte).flatten

/-- A JSON string literal: quote, escaped contents, quote. -/
def quoteStr (s : Bytes) : Bytes := 34 :: (escape s ++ [34])

/-- Decimal digits of `n` (auxiliary, accumulator form; the first argument
is structural fuel bounding the digit count, so the definition stays
kernel-computable). -/
def natToDecAux : Nat → Nat → Bytes → Bytes
  | _, 0, acc => acc
  | 0, _ + 1, acc => acc
  | f + 1, n + 1, acc =>
    natToDecAux f ((n + 1) / 10) ((48 + (n + 1) % 10) :: acc)

/-- Decimal representation of an unsigned JSON number. -/
def natToDec (n : Nat) : Bytes := if n = 0 then [48] else natToDecAux n n []

/-- JSON boolean literal bytes. -/
def boolB : Bool → Bytes
  | true => strB "true"
  | false => strB "false"

/-- One pretty-printed object member as `dump(os, 1)` lays it out:
newline, one-space indent, quoted key, colon, space, value. -/
def entryB (key : String) (v : Bytes) : Bytes :=
  [10, 32] ++ quoteStr (strB key) ++ [58, 32] ++ v

/-- Modelled from the spec: `wpi::json::dump` (wpi/json.h, not under src/)
pretty-prints with indent 1 and alphabetically ordered keys (the key order
documented in DataLog.cpp:58-66).  This is the JSON object WriteHeader
(DataLog.cpp:434-449) emits for the seven header fields, with
`timeWritePos = time.mapOffset + time.writePos` and likewise for data. -/
def headerJson (log : DataLogImpl) : Bytes :=
  [123] ++
  entryB "dataLayout" (quoteStr log.dataLayout) ++ [44] ++
  entryB "dataType" (quoteStr log.dataType) ++ [44] ++
  entryB "dataWritePos" (natToDec (log.data.mapOffset + log.data.writePos)) ++
    [44] ++
  entryB "fixedSize" (boolB log.fixedSize) ++ [44] ++
  entryB "gapData" (quoteStr log.gapData) ++ [44] ++
  entryB "recordSize" (natToDec log.recordSize) ++ [44] ++
  entryB "timeWritePos" (natToDec (log.time.mapOffset + log.time.writePos)) ++
  [10, 125]

/-- `std::vector::resize(n)`: truncate past `n`, zero-fill up to `n`. -/
def resizeTo (n : Nat) (b : Bytes) : Bytes :=
  b.take n ++ List.replicate (n - b.length) 0

/-- The 4096-byte buffer WriteHeader builds: the JSON dump, one newline,
then `resize(kHeaderSize)` (DataLog.cpp:443-447). -/
def headerBuf (log : DataLogImpl) : Bytes :=
  resizeTo kHeaderSize (headerJson log ++ [10])

/-- `DataLogImpl::WriteHeader` (DataLog.cpp:434-449): a no-op when the time
file is unmapped or read-only, otherwise writes the 4096-byte header buffer
at offset 0 of the time file. -/
def DataLogImpl.writeHeader (log : DataLogImpl) (tOk mOk : Bool) :
    DataLogImpl :=
  if log.time.map.mapped = false ∨ log.time.readOnly = true then log
  else { log with time := log.time.write 0 (headerBuf log) tOk mOk }

/-- `DataLogImpl::Flush` (DataLog.cpp:223-227): rewrites the header; the
mapping flushes have no effect on the logical state. -/
def DataLogImpl.flush (log : DataLogImpl) (tOk mOk : Bool) : DataLogImpl :=
  log.writeHeader tOk mOk

/-- `DataLogImpl::ReadRaw` (DataLog.cpp:201-221). -/
def DataLogImpl.readRaw (log : DataLogImpl) (n : Nat) (tOk mOk : Bool) :
    (Nat × Bytes) × DataLogImpl :=
  let rd := log.time.read (kHeaderSize + n * log.recordSize) log.recordSize
    tOk mOk
  let log1 := { log with time := rd.2 }
  let raw := rd.1
  if raw.length < log1.recordSize ∨ raw.length < kTimestampSize then
    ((0, []), log1)
  else
    let ts := fromLE (raw.take kTimestampSize)
    if log1.fixedSize then ((ts, raw.drop kTimestampSize), log1)
    else if log1.recordSize = kLargePointerRecordSize then
      let off := fromLE ((raw.drop kTimestampSize).take 8)
      let len := fromLE ((raw.drop (kTimestampSize + 8)).take 8)
      let rd2 := log1.data.read off len tOk mOk
      ((ts, rd2.1), { log1 with data := rd2.2 })
    else
      let off := fromLE ((raw.drop kTimestampSize).take 4)
      let len := fromLE ((raw.drop (kTimestampSize + 4)).take 4)
      let rd2 := log1.data.read off len tOk mOk
      ((ts, rd2.1), { log1 with data := rd2.2 })

/-- The value `ReadRaw` returns (its state component only refreshes mapping
bookkeeping). -/
def DataLogImpl.readRawVal (log : DataLogImpl) (n : Nat) : Nat × Bytes :=
  (log.readRaw n true true).1

/-- `DataLogImpl::AppendRawStart` (DataLog.cpp:242-275). -/
def DataLogImpl.appendRawStart (log : DataLogImpl) (timestamp size : Nat)
    (tOk mOk : Bool) : Option AppendPtr × DataLogImpl :=
  if log.checkMonotonic = true ∧ timestamp ≤ log.lastTimestamp then (none, log)
  else if log.time.readOnly = true then (none, log)
  else
    let r := log.time.getMappedOffset log.time.writePos log.recordSize tOk mOk
    let log1 := { log with time := r.fi }
    if r.ec then (none, log1)
    else
      let tpos := r.res
      let log2 := { log1 with time := { log1.time with
        contents := writeBytes log1.time.contents tpos (toLE 8 timestamp) } }
      if log2.fixedSize then
        (some (.timeP (tpos + kTimestampSize)),
          { log2 with lastTimestamp := timestamp })
      else
        let ptrBytes :=
          if log2.recordSize = kLargePointerRecordSize then
            toLE 8 log2.data.writePos ++ toLE 8 size
          else
            toLE 4 log2.data.writePos ++ toLE 4 size
        let log3 := { log2 with time := { log2.time with
          contents := writeBytes log2.time.contents (tpos + kTimestampSize)
            ptrBytes } }
        let r2 := log3.data.getMappedOffset log3.data.writePos size tOk mOk
        let log4 := { log3 with data := r2.fi }
        if r2.ec then (none, log4)
        else (some (.dataP r2.res), { log4 with lastTimestamp := timestamp })

/-- The caller's memcpy of the payload through the pointer returned by
`AppendRawStart` (DataLog.cpp:237). -/
def DataLogImpl.writeAt (log : DataLogImpl) (p : AppendPtr) (data : Bytes) :
    DataLogImpl :=
  match p with
  | .timeP pos => { log with time := { log.time with
      contents := writeBytes log.time.contents pos data } }
  | .dataP pos => { log with data := { log.data with
      contents := writeBytes log.data.contents pos data } }

/-- `DataLogImpl::AppendRawFinish` (DataLog.cpp:277-298). -/
def DataLogImpl.appendRawFinish (log : DataLogImpl) (size : Nat)
    (tOk mOk : Bool) : DataLogImpl :=
  let log1 :=
    if log.fixedSize then log
    else
      let la := { log with data := { log.data with
        writePos := log.data.writePos + size } }
      if la.gapData = [] then la
      else
        let lb := { la with
          data := FileInfo.write la.data la.data.writePos la.gapData tOk mOk }
        { lb with data := { lb.data with
          writePos := lb.data.writePos + lb.gapData.length } }
  let log2 := { log1 with time := { log1.time with
    writePos := log1.time.writePos + log1.recordSize } }
  if log2.periodicFlush ≠ 0 then
    let c := log2.periodicFlushCount + 1
    if log2.periodicFlush ≤ c then
      let log3 := DataLogImpl.flush { log2 with periodicFlushCount := c }
        tOk mOk
      { log3 with periodicFlushCount := 0 }
    else { log2 with periodicFlushCount := c }
  else log2

/-- `DataLogImpl::AppendRaw` (DataLog.cpp:233-240). -/
def DataLogImpl.appendRaw (log : DataLogImpl) (timestamp : Nat) (data : Bytes)
    (tOk mOk : Bool) : Bool × DataLogImpl :=
  let size := data.length
  match log.appendRawStart timestamp size tOk mOk with
  | (none, log1) => (false, log1)
  | (some out, log1) =>
    let log2 := log1.writeAt out data
    (true, log2.appendRawFinish size tOk mOk)

/-- Sequentially append a list of `(timestamp, payload)` entries with
`AppendRaw`, collecting each call's boolean result. -/
def appendList (log : DataLogImpl) : List (Nat × Bytes) →
    List Bool × DataLogImpl
  | [] => ([], log)
  | (ts, d) :: rest =>
    let r := log.appendRaw ts d true true
    let r' := appendList r.2 rest
    (r.1 :: r'.1, r'.2)

/-- The loop of `DataLogImpl::FindImpl` (DataLog.cpp:304-314), with `size_t`
additions taken modulo `2^64`.  The loop variable `count` strictly decreases
on every iteration, so `count` bounds the number of iterations; the first
argument is that bound, passed as structural fuel to keep the definition
kernel-computable.  `findRun` below enters the loop with the two equal, and
`findRun_eq` is the exact loop-step equation. -/
def findLoop : Nat → DataLogImpl → Nat → Nat → Nat → Bool → Bool → Nat
  | 0, _, _, first, _, _, _ => first
  | fuel + 1, log, timestamp, first, count, tOk, mOk =>
    if count = 0 then first
    else
      let step := count / 2
      let it := (first + step) % 2 ^ 64
      let rr := log.readRaw it tOk mOk
      if (rr.1).1 < timestamp then
        findLoop fuel rr.2 timestamp ((it + 1) % 2 ^ 64)
          (count - (step + 1)) tOk mOk
      else
        findLoop fuel rr.2 timestamp first step tOk mOk

/-- The loop of `DataLogImpl::FindImpl`, entered with fuel equal to the
iteration bound `count`. -/
def findRun (log : DataLogImpl) (timestamp first count : Nat)
    (tOk mOk : Bool) : Nat :=
  findLoop count log timestamp first count tOk mOk

theorem findLoop_fuel :
    ∀ fuel fuel' count : Nat, ∀ (log : DataLogImpl) (ts first : Nat)
      (tOk mOk : Bool), count ≤ fuel → count ≤ fuel' →
      findLoop fuel log ts first count tOk mOk =
        findLoop fuel' log ts first count tOk mOk := by
  intro fuel
  induction fuel with
  | zero =>
    intro fuel' count log ts first tOk mOk h1 h2
    have : count = 0 := by omega
    subst this
    cases fuel' <;> simp [findLoop]
  | succ fuel ih =>
    intro fuel' count log ts first tOk mOk h1 h2
    rcases Nat.eq_zero_or_pos count with h0 | h0
    · subst h0
      cases fuel' <;> simp [findLoop]
    · have hne : count ≠ 0 := by omega
      cases fuel' with
      | zero => omega
      | succ fuel' =>
        simp only [findLoop, if_neg hne]
        have hstep : count / 2 < count := Nat.div_lt_self h0 (by omega)
        split_ifs
        · exact ih fuel' (count - (count / 2 + 1)) _ _ _ _ _ (by omega)
            (by omega)
        · exact ih fuel' (count / 2) _ _ _ _ _ (by omega) (by omega)

theorem findRun_eq (log : DataLogImpl) (ts first count : Nat)
    (tOk mOk : Bool) :
    findRun log ts first count tOk mOk =
      if count = 0 then first
      else
        let step := count / 2
        let it := (first + step) % 2 ^ 64
        let rr := log.readRaw it tOk mOk
        if (rr.1).1 < ts then
          findRun rr.2 ts ((it + 1) % 2 ^ 64) (count - (step + 1)) tOk mOk
        else
          findRun rr.2 ts first step tOk mOk := by
  cases count with
  | zero => simp [findRun, findLoop]
  | succ count =>
    have hne : count + 1 ≠ 0 := by omega
    simp only [findRun, findLoop, if_neg hne]
    have hstep : (count + 1) / 2 < count + 1 :=
      Nat.div_lt_self (by omega) (by omega)
    split_ifs
    · exact findLoop_fuel _ _ _ _ _ _ _ _ (by omega) (by omega)
    · exact findLoop_fuel _ _ _ _ _ _ _ _ (by omega) (by omega)

/-- `DataLogImpl::FindImpl` (DataLog.cpp:300-316): the initial `count` is the
`size_t` subtraction `min(size(), last) - first`, which wraps around when
`first` exceeds `min(size(), last)`. -/
def DataLogImpl.findImpl (log : DataLogImpl) (timestamp first last : Nat)
    (tOk mOk : Bool) : Nat :=
  findRun log timestamp first (sub64 (min log.size last) first) tOk mOk

/-! ## Byte-level lemmas -/

theorem toLE_length (w v : Nat) : (toLE w v).length = w := by
  simp [toLE]

theorem toLE_succ (w v : Nat) :
    toLE (w + 1) v = v % 256 :: toLE w (v / 256) := by
  simp only [toLE, List.range_succ_eq_map, List.map_cons, List.map_map]
  congr 1
  · simp
  · apply List.map_congr_left
    intro i _
    simp only [Function.comp]
    rw [Nat.div_div_eq_div_mul, pow_succ, mul_comm (256 ^ i) 256]

theorem fromLE_nil : fromLE [] = 0 := rfl

theorem fromLE_cons (x : Nat) (l : Bytes) :
    fromLE (x :: l) = x + 256 * fromLE l := by
  simp [fromLE]

theorem fromLE_toLE (w v : Nat) : fromLE (toLE w v) = v % 256 ^ w := by
  induction w generalizing v with
  | zero => simp [toLE, fromLE_nil, Nat.mod_one]
  | succ w ih =>
    rw [toLE_succ, fromLE_cons, ih, pow_succ, mul_comm (256 ^ w) 256,
      Nat.mod_mul]

theorem readBytes_length (c : Nat → Nat) (pos len : Nat) :
    (readBytes c pos len).length = len := by
  simp [readBytes]

theorem readBytes_zero (c : Nat → Nat) (pos : Nat) :
    readBytes c pos 0 = [] := by
  simp [readBytes]

theorem readBytes_add (c : Nat → Nat) (pos a b : Nat) :
    readBytes c pos (a + b) =
      readBytes c pos a ++ readBytes c (pos + a) b := by
  simp only [readBytes, List.range_add, List.map_append, List.map_map]
  congr 1
  apply List.map_congr_left
  intro i _
  simp only [Function.comp]
  ring_nf

theorem readBytes_congr {c c' : Nat → Nat} (pos len : Nat)
    (h : ∀ i, pos ≤ i → i < pos + len → c i = c' i) :
    readBytes c pos len = readBytes c' pos len := by
  simp only [readBytes]
  apply List.map_congr_left
  intro i hi
  simp only [List.mem_range] at hi
  exact h (pos + i) (Nat.le_add_right _ _) (by omega)

theorem writeBytes_lt {c : Nat → Nat} {pos : Nat} {b : Bytes} {i : Nat}
    (h : i < pos) : writeBytes c pos b i = c i := by
  simp only [writeBytes]
  rw [if_neg]
  omega

theorem writeBytes_ge {c : Nat → Nat} {pos : Nat} {b : Bytes} {i : Nat}
    (h : pos + b.length ≤ i) : writeBytes c pos b i = c i := by
  simp only [writeBytes]
  rw [if_neg]
  omega

theorem writeBytes_in {c : Nat → Nat} {pos : Nat} {b : Bytes} {i : Nat}
    (h1 : pos ≤ i) (h2 : i < pos + b.length) :
    writeBytes c pos b i = b.getD (i - pos) 0 := by
  simp only [writeBytes]
  rw [if_pos ⟨h1, h2⟩]

theorem readBytes_writeBytes_left {c : Nat → Nat} {pos pos' len : Nat}
    {b : Bytes} (h : pos' + len ≤ pos) :
    readBytes (writeBytes c pos b) pos' len = readBytes c pos' len := by
  apply readBytes_congr
  intro i _ hi2
  exact writeBytes_lt (by omega)

theorem readBytes_writeBytes_right {c : Nat → Nat} {pos pos' len : Nat}
    {b : Bytes} (h : pos + b.length ≤ pos') :
    readBytes (writeBytes c pos b) pos' len = readBytes c pos' len := by
  apply readBytes_congr
  intro i hi1 _
  exact writeBytes_ge (by omega)

theorem getD_map_range (b : Bytes) :
    (List.range b.length).map (fun i => b.getD i 0) = b := by
  apply List.ext_getElem
  · simp
  · intro i h1 h2
    simp only [List.getElem_map, List.getElem_range]
    rw [List.getD_eq_getElem]

theorem readBytes_writeBytes_self (c : Nat → Nat) (pos : Nat) (b : Bytes) :
    readBytes (writeBytes c pos b) pos b.length = b := by
  have : readBytes (writeBytes c pos b) pos b.length =
      (List.range b.length).map (fun i => b.getD i 0) := by
    simp only [readBytes]
    apply List.map_congr_left
    intro i hi
    simp only [List.mem_range] at hi
    rw [writeBytes_in (Nat.le_add_right _ _) (by omega)]
    have h3 : pos + i - pos = i := by omega
    rw [h3]
  rw [this, getD_map_range]

/-! ## GetMappedOffset / Read / Write characterization -/

theorem grow_fields (fi : FileInfo) (pos len : Nat) :
    (grow fi pos len).readOnly = fi.readOnly ∧
    (grow fi pos len).writePos = fi.writePos ∧
    (grow fi pos len).mapOffset = fi.mapOffset ∧
    (grow fi pos len).maxGrowSize = fi.maxGrowSize ∧
    (grow fi pos len).contents = fi.contents := by
  simp only [grow]
  split_ifs <;> simp

theorem gmo_covered {fi : FileInfo} {pos len : Nat} (tOk mOk : Bool)
    (h : covered fi pos len) :
    fi.getMappedOffset pos len tOk mOk = ⟨pos - fi.mapOffset, false, fi⟩ := by
  simp [FileInfo.getMappedOffset, h]

theorem gmo_fields (fi : FileInfo) (pos len : Nat) (tOk mOk : Bool) :
    (fi.getMappedOffset pos len tOk mOk).fi.readOnly = fi.readOnly ∧
    (fi.getMappedOffset pos len tOk mOk).fi.writePos = fi.writePos ∧
    (fi.getMappedOffset pos len tOk mOk).fi.mapOffset = fi.mapOffset ∧
    (fi.getMappedOffset pos len tOk mOk).fi.maxGrowSize = fi.maxGrowSize ∧
    (fi.getMappedOffset pos len tOk mOk).fi.contents = fi.contents := by
  have hgrow := grow_fields fi pos len
  simp only [FileInfo.getMappedOffset]
  split_ifs <;> simp_all

theorem gmo_mOk (fi : FileInfo) (pos len : Nat) (tOk : Bool) :
    (fi.getMappedOffset pos len tOk true).res = pos - fi.mapOffset ∧
    (fi.getMappedOffset pos len tOk true).ec = false := by
  simp only [FileInfo.getMappedOffset]
  split_ifs <;> simp

theorem gmo_ec_iff (fi : FileInfo) (pos len : Nat) (tOk mOk : Bool) :
    (fi.getMappedOffset pos len tOk mOk).ec = true ↔
      ¬covered fi pos len ∧ mOk = false := by
  simp only [FileInfo.getMappedOffset]
  split_ifs with h1 h2 <;> simp_all

theorem fiRead_val (fi : FileInfo) (pos len : Nat) (tOk : Bool)
    (h : fi.mapOffset = 0) :
    (fi.read pos len tOk true).1 = readBytes fi.contents pos len := by
  simp only [FileInfo.read, (gmo_mOk fi pos len tOk).2, if_neg Bool.false_ne_true,
    (gmo_mOk fi pos len tOk).1, (gmo_fields fi pos len tOk true).2.2.2.2, h,
    Nat.sub_zero]

theorem fiRead_fields (fi : FileInfo) (pos len : Nat) (tOk mOk : Bool) :
    (fi.read pos len tOk mOk).2.readOnly = fi.readOnly ∧
    (fi.read pos len tOk mOk).2.writePos = fi.writePos ∧
    (fi.read pos len tOk mOk).2.mapOffset = fi.mapOffset ∧
    (fi.read pos len tOk mOk).2.maxGrowSize = fi.maxGrowSize ∧
    (fi.read pos len tOk mOk).2.contents = fi.contents := by
  have h := gmo_fields fi pos len tOk mOk
  simp only [FileInfo.read]
  split_ifs <;> exact h

theorem fiRead_len (fi : FileInfo) (pos len : Nat) (tOk mOk : Bool) :
    (fi.read pos len tOk mOk).1.length = len ∨
    (fi.read pos len tOk mOk).1 = [] := by
  simp only [FileInfo.read]
  split_ifs with h
  · right; rfl
  · left; exact readBytes_length _ _ _

theorem fiWrite_mOk (fi : FileInfo) (pos : Nat) (b : Bytes) (tOk : Bool)
    (h : fi.mapOffset = 0) :
    (fi.write pos b tOk true).contents = writeBytes fi.contents pos b ∧
    (fi.write pos b tOk true).readOnly = fi.readOnly ∧
    (fi.write pos b tOk true).writePos = fi.writePos ∧
    (fi.write pos b tOk true).mapOffset = fi.mapOffset ∧
    (fi.write pos b tOk true).maxGrowSize = fi.maxGrowSize := by
  have hg := gmo_fields fi pos b.length tOk true
  have hm := gmo_mOk fi pos b.length tOk
  simp only [FileInfo.write, hm.2, if_neg Bool.false_ne_true, hm.1, h,
    Nat.sub_zero]
  exact ⟨by rw [hg.2.2.2.2], hg.1, hg.2.1, hg.2.2.1.trans h, hg.2.2.2.1⟩

theorem fiWrite_fields (fi : FileInfo) (pos : Nat) (b : Bytes)
    (tOk mOk : Bool) :
    (fi.write pos b tOk mOk).readOnly = fi.readOnly ∧
    (fi.write pos b tOk mOk).writePos = fi.writePos ∧
    (fi.write pos b tOk mOk).mapOffset = fi.mapOffset ∧
    (fi.write pos b tOk mOk).maxGrowSize = fi.maxGrowSize := by
  have h := gmo_fields fi pos b.length tOk mOk
  simp only [FileInfo.write]
  split_ifs
  · exact ⟨h.1, h.2.1, h.2.2.1, h.2.2.2.1⟩
  · exact ⟨h.1, h.2.1, h.2.2.1, h.2.2.2.1⟩

/-! ## Claim C5: GetMappedOffset behavior -/

/-- The rounded-up size computed at DataLog.cpp:485. -/
def grownSize (fi : FileInfo) (pos len : Nat) : Nat :=
  (pos + len + fi.mapGrowSize - 1) / fi.mapGrowSize * fi.mapGrowSize

theorem grow_fileSize (fi : FileInfo) (pos len : Nat) :
    (grow fi pos len).fileSize = max fi.fileSize (grownSize fi pos len) := by
  simp only [grow, grownSize]
  split_ifs <;> simp <;> omega

theorem grow_mapGrowSize (fi : FileInfo) (pos len : Nat) :
    (grow fi pos len).mapGrowSize =
      (if fi.mapGrowSize < fi.maxGrowSize
        then min (fi.mapGrowSize * 2) fi.maxGrowSize
        else fi.mapGrowSize) := by
  simp only [grow]
  split_ifs <;> simp_all <;> omega

theorem gmo_grow_fi (fi : FileInfo) (pos len : Nat) (tOk mOk : Bool)
    (hnc : ¬covered fi pos len) (hro : fi.readOnly = false) :
    (fi.getMappedOffset pos len tOk mOk).fi =
      { grow fi pos len with map := ⟨mOk, (grow fi pos len).fileSize⟩ } := by
  simp only [FileInfo.getMappedOffset, if_neg hnc, hro]
  cases mOk <;> simp

theorem grownSize_least (fi : FileInfo) (pos len : Nat)
    (hg : 0 < fi.mapGrowSize) :
    grownSize fi pos len % fi.mapGrowSize = 0 ∧
    pos + len ≤ grownSize fi pos len ∧
    ∀ m, m % fi.mapGrowSize = 0 → pos + len ≤ m →
      grownSize fi pos len ≤ m := by
  set g := fi.mapGrowSize with hgdef
  set a := pos + len with hadef
  refine ⟨Nat.mul_mod_left _ _, ?_, ?_⟩
  · have h1 := Nat.div_add_mod (a + g - 1) g
    have h2 := Nat.mod_lt (a + g - 1) hg
    unfold grownSize
    rw [← hgdef, ← hadef, mul_comm]
    omega
  · intro m hm ha
    have hdvd : g * (m / g) = m :=
      Nat.mul_div_cancel' (Nat.dvd_of_mod_eq_zero hm)
    unfold grownSize
    rw [← hgdef, ← hadef]
    have hq : (a + g - 1) / g ≤ m / g := by
      rw [Nat.div_le_iff_le_mul_add_pred hg]
      omega
    calc (a + g - 1) / g * g ≤ m / g * g := Nat.mul_le_mul_right g hq
      _ = m := by rw [mul_comm]; exact hdvd

/-- A concrete writable `FileInfo` whose mapping does not cover `[0, 8)`. -/
def fiCex : FileInfo :=
  { readOnly := false, writePos := 0, fileSize := 0, mapOffset := 0,
    mapGrowSize := 16, maxGrowSize := 64,
    map := { mapped := false, size := 0 }, contents := fun _ => 0 }

/-- C5 (counterexample): `fiCex` needs its file extended to satisfy
`GetMappedOffset(0, 8)`, and the extend call fails (`tOk = false`), yet the
error-code output stays clear and the result is `0`, not the `SIZE_MAX`
sentinel — contradicting the claim that any OS failure to extend or remap is
reported through the error code with `SIZE_MAX` returned. -/
theorem claim_C5_counterexample :
    ¬covered fiCex 0 8 ∧ fiCex.readOnly = false ∧ fiCex.fileSize < 0 + 8 ∧
    (FileInfo.getMappedOffset fiCex 0 8 false true).ec = false ∧
    (FileInfo.getMappedOffset fiCex 0 8 false true).res = 0 ∧
    (FileInfo.getMappedOffset fiCex 0 8 false true).res ≠ SIZEMAX := by
  decide

/-- C5 (amended): if the mapping covers `[pos, pos+len)`,
`get_mapped_offset` returns `pos − mapOffset` with no other effect.
Otherwise, for a writable `FileInfo`, it rounds `pos+len` up to the least
multiple of `mapGrowSize`, extends the file size to that value when it
exceeds the current `fileSize`, doubles `mapGrowSize` clamped at
`maxGrowSize`, remaps the whole file and returns `pos − mapOffset`.  Only a
failure of the remap call is reported through the error-code output
parameter together with the `SIZE_MAX` sentinel; a failure of the
file-extend call is ignored apart from a diagnostic message. -/
theorem claim_C5 (fi : FileInfo) (pos len : Nat) (tOk mOk : Bool)
    (hg : 0 < fi.mapGrowSize) :
    (covered fi pos len →
      fi.getMappedOffset pos len tOk mOk = ⟨pos - fi.mapOffset, false, fi⟩) ∧
    (¬covered fi pos len → fi.readOnly = false →
      (fi.getMappedOffset pos len tOk mOk).fi.fileSize =
          max fi.fileSize (grownSize fi pos len) ∧
      grownSize fi pos len % fi.mapGrowSize = 0 ∧
      pos + len ≤ grownSize fi pos len ∧
      (∀ m, m % fi.mapGrowSize = 0 → pos + len ≤ m →
        grownSize fi pos len ≤ m) ∧
      (fi.getMappedOffset pos len tOk mOk).fi.mapGrowSize =
        (if fi.mapGrowSize < fi.maxGrowSize
          then min (fi.mapGrowSize * 2) fi.maxGrowSize
          else fi.mapGrowSize)) ∧
    (mOk = true →
      (fi.getMappedOffset pos len tOk mOk).res = pos - fi.mapOffset ∧
      (fi.getMappedOffset pos len tOk mOk).ec = false ∧
      (¬covered fi pos len →
        (fi.getMappedOffset pos len tOk mOk).fi.map =
          ⟨true, (fi.getMappedOffset pos len tOk mOk).fi.fileSize⟩)) ∧
    (mOk = false → ¬covered fi pos len →
      (fi.getMappedOffset pos len tOk mOk).res = SIZEMAX ∧
      (fi.getMappedOffset pos len tOk mOk).ec = true) := by
  have hleast := grownSize_least fi pos len hg
  refine ⟨fun h => gmo_covered tOk mOk h, ?_, ?_, ?_⟩
  · intro hnc hro
    have hfi := gmo_grow_fi fi pos len tOk mOk hnc hro
    refine ⟨?_, hleast.1, hleast.2.1, hleast.2.2, ?_⟩
    · rw [hfi]
      exact grow_fileSize fi pos len
    · rw [hfi]
      exact grow_mapGrowSize fi pos len
  · intro hm
    subst hm
    refine ⟨(gmo_mOk fi pos len tOk).1, (gmo_mOk fi pos len tOk).2, ?_⟩
    intro hnc
    simp only [FileInfo.getMappedOffset, if_neg hnc, eq_self_iff_true,
      if_true]
  · intro hm hnc
    subst hm
    simp only [FileInfo.getMappedOffset, if_neg hnc, Bool.false_eq_true,
      if_false]
    exact ⟨trivial, trivial⟩

/-- C5 (witness): the amended theorem applied at the concrete input
`fiCex`, `pos = 0`, `len = 8`. -/
theorem claim_C5_witness :
    0 < fiCex.mapGrowSize ∧
    ((covered fiCex 0 8 →
      fiCex.getMappedOffset 0 8 true true = ⟨0 - fiCex.mapOffset, false, fiCex⟩) ∧
    (¬covered fiCex 0 8 → fiCex.readOnly = false →
      (fiCex.getMappedOffset 0 8 true true).fi.fileSize =
          max fiCex.fileSize (grownSize fiCex 0 8) ∧
      grownSize fiCex 0 8 % fiCex.mapGrowSize = 0 ∧
      0 + 8 ≤ grownSize fiCex 0 8 ∧
      (∀ m, m % fiCex.mapGrowSize = 0 → 0 + 8 ≤ m →
        grownSize fiCex 0 8 ≤ m) ∧
      (fiCex.getMappedOffset 0 8 true true).fi.mapGrowSize =
        (if fiCex.mapGrowSize < fiCex.maxGrowSize
          then min (fiCex.mapGrowSize * 2) fiCex.maxGrowSize
          else fiCex.mapGrowSize)) ∧
    (true = true →
      (fiCex.getMappedOffset 0 8 true true).res = 0 - fiCex.mapOffset ∧
      (fiCex.getMappedOffset 0 8 true true).ec = false ∧
      (¬covered fiCex 0 8 →
        (fiCex.getMappedOffset 0 8 true true).fi.map =
          ⟨true, (fiCex.getMappedOffset 0 8 true true).fi.fileSize⟩)) ∧
    (true = false → ¬covered fiCex 0 8 →
      (fiCex.getMappedOffset 0 8 true true).res = SIZEMAX ∧
      (fiCex.getMappedOffset 0 8 true true).ec = true)) :=
  ⟨by decide, claim_C5 fiCex 0 8 true true (by decide)⟩

/-! ## Claim C9: FindImpl loop range and size_t wraparound -/

theorem findRun_range :
    ∀ count : Nat, ∀ (log : DataLogImpl) (ts first : Nat) (tOk mOk : Bool),
      first + count < 2 ^ 64 →
      first ≤ findRun log ts first count tOk mOk ∧
      findRun log ts first count tOk mOk ≤ first + count := by
  intro count
  induction count using Nat.strong_induction_on with
  | _ count ih =>
    intro log ts first tOk mOk hbound
    rcases Nat.eq_zero_or_pos count with h0 | h0
    · subst h0
      simp [findRun_eq]
    · have hne : count ≠ 0 := by omega
      rw [findRun_eq]
      simp only [if_neg hne]
      have hstep : count / 2 < count := Nat.div_lt_self h0 (by omega)
      have hit : (first + count / 2) % 2 ^ 64 = first + count / 2 := by
        apply Nat.mod_eq_of_lt
        omega
      rw [hit]
      split_ifs with hlt
      · have hit1 : (first + count / 2 + 1) % 2 ^ 64 = first + count / 2 + 1 := by
          apply Nat.mod_eq_of_lt
          omega
        rw [hit1]
        have hrec := ih (count - (count / 2 + 1)) (by omega)
          (log.readRaw (first + count / 2) tOk mOk).2 ts
          (first + count / 2 + 1) tOk mOk (by omega)
        omega
      · have hrec := ih (count / 2) (by omega)
          (log.readRaw (first + count / 2) tOk mOk).2 ts first tOk mOk
          (by omega)
        omega

/-- The example log used to witness the claims: a writable fixed-size log
with `recordSize = 16` holding two records of zero bytes. -/
def fiTimeEx : FileInfo :=
  { readOnly := false, writePos := 4096 + 32, fileSize := 8192,
    mapOffset := 0, mapGrowSize := 256, maxGrowSize := 1024,
    map := { mapped := true, size := 8192 }, contents := fun _ => 0 }

def fiDataEx : FileInfo :=
  { readOnly := false, writePos := 0, fileSize := 0,
    mapOffset := 0, mapGrowSize := 1024, maxGrowSize := 4096,
    map := { mapped := false, size := 0 }, contents := fun _ => 0 }

def logEx : DataLogImpl :=
  { dataType := [], dataLayout := [], recordSize := 16, fixedSize := true,
    gapData := [], lastTimestamp := 0, checkMonotonic := false,
    periodicFlush := 0, periodicFlushCount := 0,
    time := fiTimeEx, data := fiDataEx }

/-- C9: under the precondition `first ≤ min(size(), last)` (with the
`size_t` bound `min(size(), last) < 2^64`), the binary-search loop of
`FindImpl` returns a value in `[first, min(size(), last)]` — and it
terminates, because its `count` strictly decreases on every iteration,
which is exactly the measure the definition of `findLoop` is checked
against.  Without the precondition, the unsigned initial count
`min(size(), last) - first` wraps around to `2^64 − (first − min(size(),
last))`, so the precondition is required for the computation to be
meaningful. -/
theorem claim_C9 (log : DataLogImpl) (timestamp first last : Nat)
    (tOk mOk : Bool) :
    (first ≤ min log.size last → min log.size last < 2 ^ 64 →
      first ≤ log.findImpl timestamp first last tOk mOk ∧
      log.findImpl timestamp first last tOk mOk ≤ min log.size last) ∧
    (min log.size last < first → first < 2 ^ 64 →
      sub64 (min log.size last) first =
        2 ^ 64 - (first - min log.size last)) := by
  constructor
  · intro hle hlt
    have hcount : sub64 (min log.size last) first = min log.size last - first := by
      unfold sub64
      omega
    unfold DataLogImpl.findImpl
    rw [hcount]
    have h := findRun_range (min log.size last - first) log timestamp first
      tOk mOk (by omega)
    omega
  · intro hgt hlt
    unfold sub64
    omega

/-- C9 (witness): the theorem applied to the concrete log `logEx`
(`size() = 2`), both with the precondition satisfied (`first = 0`,
`last = 2`) and with it violated (`first = 5`). -/
theorem claim_C9_witness :
    ((0 : Nat) ≤ min logEx.size 2 ∧ min logEx.size 2 < 2 ^ 64 ∧
      0 ≤ logEx.findImpl 5 0 2 true true ∧
      logEx.findImpl 5 0 2 true true ≤ min logEx.size 2) ∧
    (min logEx.size 2 < 5 ∧ (5 : Nat) < 2 ^ 64 ∧
      sub64 (min logEx.size 2) 5 = 2 ^ 64 - (5 - min logEx.size 2)) :=
  ⟨⟨by decide, by norm_num,
    ((claim_C9 logEx 5 0 2 true true).1 (by decide) (by norm_num)).1,
    ((claim_C9 logEx 5 0 2 true true).1 (by decide) (by norm_num)).2⟩,
   ⟨by decide, by norm_num,
    (claim_C9 logEx 7 5 2 true true).2 (by decide) (by norm_num)⟩⟩

/-! ## Claim C4: failed AppendRawStart leaves the logical state unchanged -/

theorem ars_fields (log : DataLogImpl) (ts sz : Nat) (tOk mOk : Bool) :
    (log.appendRawStart ts sz tOk mOk).2.time.writePos = log.time.writePos ∧
    (log.appendRawStart ts sz tOk mOk).2.data.writePos = log.data.writePos ∧
    (log.appendRawStart ts sz tOk mOk).2.recordSize = log.recordSize := by
  have ht := (gmo_fields log.time log.time.writePos log.recordSize tOk mOk).2.1
  have hd := (gmo_fields log.data log.data.writePos sz tOk mOk).2.1
  simp only [DataLogImpl.appendRawStart]
  split_ifs <;> simp [ht, hd]

theorem ars_none_iff (log : DataLogImpl) (ts sz : Nat) (tOk mOk : Bool) :
    (log.appendRawStart ts sz tOk mOk).1 = none ↔
      ((log.checkMonotonic = true ∧ ts ≤ log.lastTimestamp) ∨
        log.time.readOnly = true ∨
        (log.time.getMappedOffset log.time.writePos log.recordSize
          tOk mOk).ec = true ∨
        (log.fixedSize = false ∧
          (log.data.getMappedOffset log.data.writePos sz
            tOk mOk).ec = true)) := by
  simp only [DataLogImpl.appendRawStart]
  split_ifs <;> simp_all [Bool.not_eq_true]

theorem ars_none_last (log : DataLogImpl) (ts sz : Nat) (tOk mOk : Bool) :
    (log.appendRawStart ts sz tOk mOk).1 = none →
    (log.appendRawStart ts sz tOk mOk).2.lastTimestamp =
      log.lastTimestamp := by
  simp only [DataLogImpl.appendRawStart]
  split_ifs <;> simp

/-- C4: `AppendRawStart` never advances either write position (only
`append_finish` does), and it returns null exactly when the monotonic check
rejects the timestamp, the log is read-only, or the growth/remap of the time
file — or, for variable-size logs, of the data file — fails; on every such
failure `lastTimestamp` and `size()` also keep their prior values. -/
theorem claim_C4 (log : DataLogImpl) (ts sz : Nat) (tOk mOk : Bool) :
    (log.appendRawStart ts sz tOk mOk).2.time.writePos = log.time.writePos ∧
    (log.appendRawStart ts sz tOk mOk).2.data.writePos = log.data.writePos ∧
    (log.appendRawStart ts sz tOk mOk).2.size = log.size ∧
    ((log.appendRawStart ts sz tOk mOk).1 = none ↔
      ((log.checkMonotonic = true ∧ ts ≤ log.lastTimestamp) ∨
        log.time.readOnly = true ∨
        (log.time.getMappedOffset log.time.writePos log.recordSize
          tOk mOk).ec = true ∨
        (log.fixedSize = false ∧
          (log.data.getMappedOffset log.data.writePos sz
            tOk mOk).ec = true))) ∧
    ((log.appendRawStart ts sz tOk mOk).1 = none →
      (log.appendRawStart ts sz tOk mOk).2.lastTimestamp =
        log.lastTimestamp) := by
  have hf := ars_fields log ts sz tOk mOk
  refine ⟨hf.1, hf.2.1, ?_, ars_none_iff log ts sz tOk mOk,
    ars_none_last log ts sz tOk mOk⟩
  unfold DataLogImpl.size
  rw [hf.1, hf.2.2]

/-- A read-only variant of the example log. -/
def logExRO : DataLogImpl :=
  { logEx with time := { fiTimeEx with readOnly := true } }

/-- C4 (witness): the theorem applied at the concrete read-only log
`logExRO`: the append fails, and write positions, `lastTimestamp` and
`size()` keep their prior values. -/
theorem claim_C4_witness :
    (logExRO.appendRawStart 1 0 true true).2.time.writePos =
      logExRO.time.writePos ∧
    (logExRO.appendRawStart 1 0 true true).2.data.writePos =
      logExRO.data.writePos ∧
    (logExRO.appendRawStart 1 0 true true).2.size = logExRO.size ∧
    (logExRO.appendRawStart 1 0 true true).1 = none ∧
    (logExRO.appendRawStart 1 0 true true).2.lastTimestamp =
      logExRO.lastTimestamp := by
  have h := claim_C4 logExRO 1 0 true true
  have hnone : (logExRO.appendRawStart 1 0 true true).1 = none :=
    h.2.2.2.1.mpr (Or.inr (Or.inl rfl))
  exact ⟨h.1, h.2.1, h.2.2.1, hnone, h.2.2.2.2 hnone⟩

/-! ## Claim C3: out-of-range reads -/

theorem fromLE_zeros : ∀ k, fromLE (List.replicate k 0) = 0 := by
  intro k
  induction k with
  | zero => rfl
  | succ k ih => simp [List.replicate_succ, fromLE_cons, ih]

theorem readBytes_eq_replicate {c : Nat → Nat} {pos len : Nat}
    (h : ∀ i, i < len → c (pos + i) = 0) :
    readBytes c pos len = List.replicate len 0 := by
  apply List.ext_getElem
  · simp [readBytes]
  · intro i h1 h2
    simp only [readBytes, List.getElem_map, List.getElem_range,
      List.getElem_replicate]
    exact h i (by simpa [readBytes] using h1)

/-- A freshly created fixed-size log (`recordSize = 16`) with no records:
`size() = 0`, time file all zero, mapping covering only the header. -/
def fiTimeC3 : FileInfo :=
  { readOnly := false, writePos := 4096, fileSize := 4096,
    mapOffset := 0, mapGrowSize := 256, maxGrowSize := 1024,
    map := { mapped := true, size := 4096 }, contents := fun _ => 0 }

def logC3 : DataLogImpl :=
  { dataType := [], dataLayout := [], recordSize := 16, fixedSize := true,
    gapData := [], lastTimestamp := 0, checkMonotonic := false,
    periodicFlush := 0, periodicFlushCount := 0,
    time := fiTimeC3, data := fiDataEx }

/-- C3 (counterexample): on the writable fixed-size log `logC3`, ordinal 0
is out of range (`size() = 0`), yet `ReadRaw(0)` does not return
`(0, empty)`: it returns timestamp 0 with a non-empty view of
`recordSize − 8` zero bytes, and it even grows the time file as a side
effect (the mapping did not cover the slot, so the read extended and
remapped the file). -/
theorem claim_C3_counterexample :
    logC3.size = 0 ∧
    (logC3.readRaw 0 true true).1 ≠ (0, ([] : Bytes)) ∧
    (logC3.readRaw 0 true true).1 = (0, List.replicate 8 0) ∧
    (logC3.readRaw 0 true true).2.time.fileSize ≠ logC3.time.fileSize := by
  decide

/-- C3 (amended): `ReadRaw` never errors.  It returns `(0, empty)` whenever
the time-file read produces fewer bytes than `recordSize` (which happens
exactly when the mapping update fails).  When the read succeeds over an
out-of-range, still-unwritten slot (all slot bytes zero, as on a freshly
grown file), it returns timestamp 0 together with an empty view for
variable-size logs, but with a non-empty view of `recordSize − 8` zero
bytes for fixed-size logs; on a writable log such a read can moreover grow
the file (shown by the counterexample). -/
theorem claim_C3 (log : DataLogImpl) (n : Nat) :
    (∀ tOk mOk : Bool,
      ((log.time.read (kHeaderSize + n * log.recordSize) log.recordSize
          tOk mOk).1.length < log.recordSize ∨
        (log.time.read (kHeaderSize + n * log.recordSize) log.recordSize
          tOk mOk).1.length < kTimestampSize) →
      (log.readRaw n tOk mOk).1 = (0, [])) ∧
    (log.time.mapOffset = 0 → log.data.mapOffset = 0 →
      kTimestampSize ≤ log.recordSize →
      (∀ i, i < log.recordSize →
        log.time.contents (kHeaderSize + n * log.recordSize + i) = 0) →
      (log.readRaw n true true).1 =
        (0, if log.fixedSize = true
          then List.replicate (log.recordSize - kTimestampSize) 0
          else [])) := by
  constructor
  · intro tOk mOk h
    simp only [DataLogImpl.readRaw]
    rw [if_pos h]
  · intro ht hd hrs hzero
    have hraw : (log.time.read (kHeaderSize + n * log.recordSize)
        log.recordSize true true).1 = List.replicate log.recordSize 0 := by
      rw [fiRead_val log.time _ _ true ht]
      exact readBytes_eq_replicate hzero
    simp only [DataLogImpl.readRaw, hraw, List.length_replicate,
      lt_irrefl, false_or]
    rw [if_neg (by omega)]
    have hts : fromLE ((List.replicate log.recordSize 0).take
        kTimestampSize) = 0 := by
      rw [List.take_replicate, fromLE_zeros]
    split_ifs with hfix hlarge
    · simp [hts, fromLE_zeros, List.drop_replicate]
    · have hoff : fromLE (((List.replicate log.recordSize 0).drop
          kTimestampSize).take 8) = 0 := by
        rw [List.drop_replicate, List.take_replicate, fromLE_zeros]
      have hlen : fromLE (((List.replicate log.recordSize 0).drop
          (kTimestampSize + 8)).take 8) = 0 := by
        rw [List.drop_replicate, List.take_replicate, fromLE_zeros]
      simp only [hts, hoff, hlen]
      rw [fiRead_val log.data 0 0 true hd, readBytes_zero]
    · have hoff : fromLE (((List.replicate log.recordSize 0).drop
          kTimestampSize).take 4) = 0 := by
        rw [List.drop_replicate, List.take_replicate, fromLE_zeros]
      have hlen : fromLE (((List.replicate log.recordSize 0).drop
          (kTimestampSize + 4)).take 4) = 0 := by
        rw [List.drop_replicate, List.take_replicate, fromLE_zeros]
      simp only [hts, hoff, hlen]
      rw [fiRead_val log.data 0 0 true hd, readBytes_zero]

/-- C3 (witness): the amended theorem applied to `logC3`: with the remap
failing the read yields `(0, empty)`; with it succeeding, ordinal 0 reads
`(0, eight zero bytes)`. -/
theorem claim_C3_witness :
    ((logC3.time.read (kHeaderSize + 0 * logC3.recordSize) logC3.recordSize
        true false).1.length < logC3.recordSize ∨
      (logC3.time.read (kHeaderSize + 0 * logC3.recordSize) logC3.recordSize
        true false).1.length < kTimestampSize) ∧
    (logC3.readRaw 0 true false).1 = (0, []) ∧
    (logC3.readRaw 0 true true).1 =
      (0, if logC3.fixedSize = true
        then List.replicate (logC3.recordSize - kTimestampSize) 0
        else []) :=
  ⟨by decide,
   (claim_C3 logC3 0).1 true false (by decide),
   (claim_C3 logC3 0).2 rfl rfl (by decide) (by decide)⟩

/-! ## Claim C2: find is a lower-bound binary search -/

theorem fiRead_val' (fi : FileInfo) (pos len : Nat) (tOk : Bool) :
    (fi.read pos len tOk true).1 =
      readBytes fi.contents (pos - fi.mapOffset) len := by
  simp only [FileInfo.read, (gmo_mOk fi pos len tOk).2,
    if_neg Bool.false_ne_true, (gmo_mOk fi pos len tOk).1,
    (gmo_fields fi pos len tOk true).2.2.2.2]

theorem fiRead_contents (fi : FileInfo) (pos len : Nat) (tOk mOk : Bool) :
    (fi.read pos len tOk mOk).2.contents = fi.contents :=
  (fiRead_fields fi pos len tOk mOk).2.2.2.2

theorem fiRead_writePos (fi : FileInfo) (pos len : Nat) (tOk mOk : Bool) :
    (fi.read pos len tOk mOk).2.writePos = fi.writePos :=
  (fiRead_fields fi pos len tOk mOk).2.1

theorem fiRead_mapOffset (fi : FileInfo) (pos len : Nat) (tOk mOk : Bool) :
    (fi.read pos len tOk mOk).2.mapOffset = fi.mapOffset :=
  (fiRead_fields fi pos len tOk mOk).2.2.1

theorem fiRead_readOnly (fi : FileInfo) (pos len : Nat) (tOk mOk : Bool) :
    (fi.read pos len tOk mOk).2.readOnly = fi.readOnly :=
  (fiRead_fields fi pos len tOk mOk).1

/-- The value `ReadRaw(n)` produces, as a pure function of the log's
persistent fields (contents, sizes, mode) — the state component of
`readRaw` only refreshes mapping bookkeeping and never changes it. -/
def readRawPure (log : DataLogImpl) (n : Nat) : Nat × Bytes :=
  let raw := readBytes log.time.contents
    (kHeaderSize + n * log.recordSize - log.time.mapOffset) log.recordSize
  if raw.length < log.recordSize ∨ raw.length < kTimestampSize then (0, [])
  else
    let ts := fromLE (raw.take kTimestampSize)
    if log.fixedSize then (ts, raw.drop kTimestampSize)
    else if log.recordSize = kLargePointerRecordSize then
      (ts, readBytes log.data.contents
        (fromLE ((raw.drop kTimestampSize).take 8) - log.data.mapOffset)
        (fromLE ((raw.drop (kTimestampSize + 8)).take 8)))
    else
      (ts, readBytes log.data.contents
        (fromLE ((raw.drop kTimestampSize).take 4) - log.data.mapOffset)
        (fromLE ((raw.drop (kTimestampSize + 4)).take 4)))

theorem readRawVal_eq_pure (log : DataLogImpl) (n : Nat) :
    log.readRawVal n = readRawPure log n := by
  simp only [DataLogImpl.readRawVal, DataLogImpl.readRaw, readRawPure,
    fiRead_val', readBytes_length]
  split_ifs <;> rfl

theorem readRaw_fields (log : DataLogImpl) (n : Nat) (tOk mOk : Bool) :
    (log.readRaw n tOk mOk).2.time.contents = log.time.contents ∧
    (log.readRaw n tOk mOk).2.time.mapOffset = log.time.mapOffset ∧
    (log.readRaw n tOk mOk).2.recordSize = log.recordSize ∧
    (log.readRaw n tOk mOk).2.fixedSize = log.fixedSize ∧
    (log.readRaw n tOk mOk).2.data.contents = log.data.contents ∧
    (log.readRaw n tOk mOk).2.data.mapOffset = log.data.mapOffset ∧
    (log.readRaw n tOk mOk).2.time.writePos = log.time.writePos := by
  simp only [DataLogImpl.readRaw]
  split_ifs <;>
    simp [fiRead_contents, fiRead_writePos, fiRead_mapOffset]

theorem readRawPure_congr {log log' : DataLogImpl}
    (h1 : log'.time.contents = log.time.contents)
    (h2 : log'.time.mapOffset = log.time.mapOffset)
    (h3 : log'.recordSize = log.recordSize)
    (h4 : log'.fixedSize = log.fixedSize)
    (h5 : log'.data.contents = log.data.contents)
    (h6 : log'.data.mapOffset = log.data.mapOffset) :
    ∀ n, readRawPure log' n = readRawPure log n := by
  intro n
  simp only [readRawPure, h1, h2, h3, h4, h5, h6]

theorem findRun_spec (f : Nat → Nat) (ts : Nat) :
    ∀ count : Nat, ∀ (log : DataLogImpl) (first : Nat),
      (∀ n, (readRawPure log n).1 = f n) →
      first + count < 2 ^ 64 →
      (∀ i j, first ≤ i → i ≤ j → j < first + count → f i ≤ f j) →
      first ≤ findRun log ts first count true true ∧
      findRun log ts first count true true ≤ first + count ∧
      (∀ i, first ≤ i → i < findRun log ts first count true true →
        f i < ts) ∧
      (∀ i, findRun log ts first count true true ≤ i →
        i < first + count → ts ≤ f i) := by
  intro count
  induction count using Nat.strong_induction_on with
  | _ count ih =>
    intro log first hview hbound hmono
    rcases Nat.eq_zero_or_pos count with h0 | h0
    · subst h0
      have hz : findRun log ts first 0 true true = first := by
        rw [findRun_eq]
        simp
      rw [hz]
      exact ⟨le_refl _, by omega, fun i h1 h2 => absurd h2 (by omega),
        fun i h1 h2 => absurd h2 (by omega)⟩
    · have hne : count ≠ 0 := by omega
      have hstep : count / 2 < count := Nat.div_lt_self h0 (by omega)
      rw [findRun_eq]
      simp only [if_neg hne]
      have hit : (first + count / 2) % 2 ^ 64 = first + count / 2 :=
        Nat.mod_eq_of_lt (by omega)
      rw [hit]
      have hvalit :
          ((log.readRaw (first + count / 2) true true).1).1 =
            f (first + count / 2) := by
        have := readRawVal_eq_pure log (first + count / 2)
        unfold DataLogImpl.readRawVal at this
        rw [this, hview]
      set log' := (log.readRaw (first + count / 2) true true).2 with hlog'
      have hfields := readRaw_fields log (first + count / 2) true true
      have hview' : ∀ n, (readRawPure log' n).1 = f n := by
        intro n
        rw [readRawPure_congr hfields.1 hfields.2.1 hfields.2.2.1
          hfields.2.2.2.1 hfields.2.2.2.2.1 hfields.2.2.2.2.2.1 n]
        exact hview n
      split_ifs with hlt
      · rw [hvalit] at hlt
        have hit1 : (first + count / 2 + 1) % 2 ^ 64 =
            first + count / 2 + 1 := Nat.mod_eq_of_lt (by omega)
        rw [hit1]
        have hrec := ih (count - (count / 2 + 1)) (by omega) log'
          (first + count / 2 + 1) hview' (by omega)
          (fun i j hi hij hj => hmono i j (by omega) hij (by omega))
        refine ⟨by omega, by omega, ?_, ?_⟩
        · intro i h1 h2
          rcases Nat.lt_or_ge i (first + count / 2 + 1) with hc | hc
          · calc f i ≤ f (first + count / 2) :=
                hmono i (first + count / 2) h1 (by omega) (by omega)
              _ < ts := hlt
          · exact hrec.2.2.1 i hc h2
        · intro i h1 h2
          exact hrec.2.2.2 i h1 (by omega)
      · rw [hvalit] at hlt
        push_neg at hlt
        have hrec := ih (count / 2) (by omega) log' first hview' (by omega)
          (fun i j hi hij hj => hmono i j hi hij (by omega))
        refine ⟨hrec.1, by omega, hrec.2.2.1, ?_⟩
        intro i h1 h2
        rcases Nat.lt_or_ge i (first + count / 2) with hc | hc
        · exact hrec.2.2.2 i h1 hc
        · calc ts ≤ f (first + count / 2) := hlt
            _ ≤ f i := hmono (first + count / 2) i (by omega) hc h2

/-- C2: on a log whose stored record timestamps are monotonically
increasing over `[0, size())`, `FindImpl(ts, 0, size())` — the search
`find(ts)` performs over the whole record range — returns the smallest
ordinal `n < size()` whose timestamp is `≥ ts`, and returns `size()` when
no such ordinal exists: the result `r` satisfies `r ≤ size()`, every
ordinal below `r` has timestamp `< ts`, and `r` itself (when in range) has
timestamp `≥ ts`, hence `r` is a lower bound of all candidates. -/
theorem claim_C2 (log : DataLogImpl) (ts : Nat)
    (hsz : log.size < 2 ^ 64)
    (hmono : ∀ j, j < log.size → ∀ i, i ≤ j →
      (log.readRawVal i).1 ≤ (log.readRawVal j).1) :
    log.findImpl ts 0 log.size true true ≤ log.size ∧
    (∀ i, i < log.findImpl ts 0 log.size true true →
      (log.readRawVal i).1 < ts) ∧
    (log.findImpl ts 0 log.size true true < log.size →
      ts ≤ (log.readRawVal (log.findImpl ts 0 log.size true true)).1) ∧
    (∀ n, n < log.size → ts ≤ (log.readRawVal n).1 →
      log.findImpl ts 0 log.size true true ≤ n) := by
  have hcount : sub64 (min log.size log.size) 0 = log.size := by
    unfold sub64
    omega
  have hview : ∀ n, (readRawPure log n).1 = (log.readRawVal n).1 := by
    intro n
    rw [readRawVal_eq_pure]
  have hspec := findRun_spec (fun n => (log.readRawVal n).1) ts log.size log 0
    hview (by omega)
    (fun i j _ hij hj => hmono j (by omega) i hij)
  unfold DataLogImpl.findImpl
  rw [hcount]
  refine ⟨by omega, ?_, ?_, ?_⟩
  · intro i hi
    exact hspec.2.2.1 i (by omega) hi
  · intro hin
    exact hspec.2.2.2 _ (le_refl _) (by omega)
  · intro n hn hts
    by_contra hcon
    push_neg at hcon
    exact absurd hts (by simpa using hspec.2.2.1 n (by omega) hcon)

/-- Time-file contents of a fixed-size log holding five records with
timestamps 10, 20, 30, 40, 50 (each record 16 bytes, payload zero). -/
def c2contents : Nat → Nat := fun i =>
  if 4096 ≤ i ∧ i < 4176 ∧ (i - 4096) % 16 = 0 then
    10 * ((i - 4096) / 16 + 1)
  else 0

def fiTimeFind : FileInfo :=
  { readOnly := false, writePos := 4176, fileSize := 4224,
    mapOffset := 0, mapGrowSize := 256, maxGrowSize := 1024,
    map := { mapped := true, size := 4224 }, contents := c2contents }

def logFind : DataLogImpl :=
  { dataType := [], dataLayout := [], recordSize := 16, fixedSize := true,
    gapData := [], lastTimestamp := 50, checkMonotonic := true,
    periodicFlush := 0, periodicFlushCount := 0,
    time := fiTimeFind, data := fiDataEx }

/-- C2 (witness): the theorem applied to the concrete five-record log with
timestamps `[10, 20, 30, 40, 50]`, together with the concrete evaluations
`find(25) = 2`, `find(30) = 2`, `find(10) = 0`, `find(1) = 0`,
`find(100) = 5 = size()`. -/
theorem claim_C2_witness :
    logFind.size < 2 ^ 64 ∧
    (∀ j, j < logFind.size → ∀ i, i ≤ j →
      (logFind.readRawVal i).1 ≤ (logFind.readRawVal j).1) ∧
    logFind.findImpl 25 0 logFind.size true true ≤ logFind.size ∧
    (∀ i, i < logFind.findImpl 25 0 logFind.size true true →
      (logFind.readRawVal i).1 < 25) ∧
    (logFind.findImpl 25 0 logFind.size true true < logFind.size →
      25 ≤ (logFind.readRawVal
        (logFind.findImpl 25 0 logFind.size true true)).1) ∧
    logFind.findImpl 25 0 logFind.size true true = 2 ∧
    logFind.findImpl 30 0 logFind.size true true = 2 ∧
    logFind.findImpl 10 0 logFind.size true true = 0 ∧
    logFind.findImpl 1 0 logFind.size true true = 0 ∧
    logFind.findImpl 100 0 logFind.size true true = 5 := by
  have h := claim_C2 logFind 25 (by decide) (by decide)
  exact ⟨by decide, by decide, h.1, h.2.1, h.2.2.1, by decide, by decide,
    by decide, by decide, by decide⟩

/-! ## Claim C8: data.writePos accounting for variable-size logs -/

theorem headerBuf_length (log : DataLogImpl) :
    (headerBuf log).length = kHeaderSize := by
  simp only [headerBuf, resizeTo, List.length_append, List.length_take,
    List.length_replicate]
  omega

theorem writeHeader_keeps (log : DataLogImpl) (tOk mOk : Bool) :
    (log.writeHeader tOk mOk).data = log.data ∧
    (log.writeHeader tOk mOk).time.writePos = log.time.writePos ∧
    (log.writeHeader tOk mOk).recordSize = log.recordSize ∧
    (log.writeHeader tOk mOk).fixedSize = log.fixedSize ∧
    (log.writeHeader tOk mOk).gapData = log.gapData ∧
    (log.writeHeader tOk mOk).lastTimestamp = log.lastTimestamp ∧
    (log.writeHeader tOk mOk).time.mapOffset = log.time.mapOffset ∧
    (log.writeHeader tOk mOk).time.readOnly = log.time.readOnly := by
  unfold DataLogImpl.writeHeader
  split_ifs <;> simp [fiWrite_fields]

theorem flush_keeps (log : DataLogImpl) (tOk mOk : Bool) :
    (log.flush tOk mOk).data = log.data ∧
    (log.flush tOk mOk).time.writePos = log.time.writePos ∧
    (log.flush tOk mOk).recordSize = log.recordSize ∧
    (log.flush tOk mOk).fixedSize = log.fixedSize ∧
    (log.flush tOk mOk).gapData = log.gapData ∧
    (log.flush tOk mOk).lastTimestamp = log.lastTimestamp := by
  have h := writeHeader_keeps log tOk mOk
  exact ⟨h.1, h.2.1, h.2.2.1, h.2.2.2.1, h.2.2.2.2.1, h.2.2.2.2.2.1⟩

theorem arf_dataPos (log : DataLogImpl) (sz : Nat) (tOk mOk : Bool)
    (hfix : log.fixedSize = false) :
    (log.appendRawFinish sz tOk mOk).data.writePos =
      log.data.writePos + sz + log.gapData.length := by
  simp only [DataLogImpl.appendRawFinish, hfix, Bool.false_eq_true, if_false]
  split_ifs <;>
    simp_all [writeHeader_keeps, DataLogImpl.flush, fiWrite_fields]

theorem arf_timePos (log : DataLogImpl) (sz : Nat) (tOk mOk : Bool) :
    (log.appendRawFinish sz tOk mOk).time.writePos =
      log.time.writePos + log.recordSize := by
  simp only [DataLogImpl.appendRawFinish]
  split_ifs <;>
    simp_all [writeHeader_keeps, DataLogImpl.flush, fiWrite_fields]

theorem arf_scalars (log : DataLogImpl) (sz : Nat) (tOk mOk : Bool) :
    (log.appendRawFinish sz tOk mOk).fixedSize = log.fixedSize ∧
    (log.appendRawFinish sz tOk mOk).gapData = log.gapData ∧
    (log.appendRawFinish sz tOk mOk).recordSize = log.recordSize := by
  simp only [DataLogImpl.appendRawFinish]
  split_ifs <;>
    simp_all [writeHeader_keeps, DataLogImpl.flush, fiWrite_fields]

theorem arf_gap (log : DataLogImpl) (sz : Nat) (tOk : Bool)
    (hfix : log.fixedSize = false) (hoff : log.data.mapOffset = 0) :
    readBytes (log.appendRawFinish sz tOk true).data.contents
      (log.data.writePos + sz) log.gapData.length = log.gapData := by
  have hw := (fiWrite_mOk { log.data with writePos := log.data.writePos + sz }
    (log.data.writePos + sz) log.gapData tOk (by simpa using hoff)).1
  simp only [DataLogImpl.appendRawFinish, hfix, Bool.false_eq_true, if_false]
  split_ifs with hgap <;>
    simp_all [DataLogImpl.flush, writeHeader_keeps, readBytes_writeBytes_self,
      readBytes_zero]

theorem writeAt_keeps (log : DataLogImpl) (p : AppendPtr) (d : Bytes) :
    (log.writeAt p d).data.writePos = log.data.writePos ∧
    (log.writeAt p d).time.writePos = log.time.writePos ∧
    (log.writeAt p d).fixedSize = log.fixedSize ∧
    (log.writeAt p d).gapData = log.gapData ∧
    (log.writeAt p d).recordSize = log.recordSize ∧
    (log.writeAt p d).data.mapOffset = log.data.mapOffset := by
  cases p <;> simp [DataLogImpl.writeAt]

theorem ars_scalars (log : DataLogImpl) (ts sz : Nat) (tOk mOk : Bool) :
    (log.appendRawStart ts sz tOk mOk).2.fixedSize = log.fixedSize ∧
    (log.appendRawStart ts sz tOk mOk).2.gapData = log.gapData ∧
    (log.appendRawStart ts sz tOk mOk).2.data.mapOffset =
      log.data.mapOffset ∧
    (log.appendRawStart ts sz tOk mOk).2.time.mapOffset =
      log.time.mapOffset ∧
    (log.appendRawStart ts sz tOk mOk).2.periodicFlush =
      log.periodicFlush ∧
    (log.appendRawStart ts sz tOk mOk).2.periodicFlushCount =
      log.periodicFlushCount := by
  have hd := (gmo_fields log.data log.data.writePos sz tOk mOk).2.2.1
  have ht := (gmo_fields log.time log.time.writePos log.recordSize
    tOk mOk).2.2.1
  simp only [DataLogImpl.appendRawStart]
  split_ifs <;> simp [hd, ht]

theorem arf_dataPos_fixed (log : DataLogImpl) (sz : Nat) (tOk mOk : Bool)
    (hfix : log.fixedSize = true) :
    (log.appendRawFinish sz tOk mOk).data.writePos = log.data.writePos := by
  simp only [DataLogImpl.appendRawFinish, hfix, if_true]
  split_ifs <;>
    simp_all [DataLogImpl.flush, writeHeader_keeps, fiWrite_fields]

theorem appendRaw_step (log : DataLogImpl) (ts : Nat) (d : Bytes)
    (hok : (log.appendRaw ts d true true).1 = true) :
    (log.appendRaw ts d true true).2.data.writePos =
      (if log.fixedSize = true then log.data.writePos
        else log.data.writePos + d.length + log.gapData.length) ∧
    (log.appendRaw ts d true true).2.fixedSize = log.fixedSize ∧
    (log.appendRaw ts d true true).2.gapData = log.gapData := by
  have hfx := (ars_scalars log ts d.length true true).1
  have hgp := (ars_scalars log ts d.length true true).2.1
  have hdp := (ars_fields log ts d.length true true).2.1
  rcases hs : log.appendRawStart ts d.length true true with ⟨o, log1⟩
  rw [hs] at hfx hgp hdp
  cases o with
  | none =>
    rw [DataLogImpl.appendRaw, hs] at hok
    simp at hok
  | some out =>
    rw [DataLogImpl.appendRaw, hs]
    simp only
    have hw := writeAt_keeps log1 out d
    have hfix2 : (log1.writeAt out d).fixedSize = log.fixedSize := by
      rw [hw.2.2.1, hfx]
    have hgap2 : (log1.writeAt out d).gapData = log.gapData := by
      rw [hw.2.2.2.1, hgp]
    have hdp2 : (log1.writeAt out d).data.writePos = log.data.writePos := by
      rw [hw.1, hdp]
    have hscal := arf_scalars (log1.writeAt out d) d.length true true
    cases hfix : log.fixedSize with
    | false =>
      have h := arf_dataPos (log1.writeAt out d) d.length true true
        (hfix2.trans hfix)
      refine ⟨?_, by rw [hscal.1, hfix2]; exact hfix,
        by rw [hscal.2.1, hgap2]⟩
      rw [h, hdp2, hgap2]
      simp [hfix]
    | true =>
      have h := arf_dataPos_fixed (log1.writeAt out d) d.length true true
        (hfix2.trans hfix)
      refine ⟨?_, by rw [hscal.1, hfix2]; exact hfix,
        by rw [hscal.2.1, hgap2]⟩
      rw [h, hdp2]
      simp [hfix]

theorem appendList_dataPos :
    ∀ (es : List (Nat × Bytes)) (log : DataLogImpl),
      log.fixedSize = false →
      ((appendList log es).1.all (fun b => b)) = true →
      (appendList log es).2.data.writePos =
        log.data.writePos + (es.map (fun e => e.2.length)).sum +
          es.length * log.gapData.length := by
  intro es
  induction es with
  | nil =>
    intro log hfix hok
    simp [appendList]
  | cons e rest ih =>
    intro log hfix hok
    obtain ⟨ts, d⟩ := e
    simp only [appendList, List.all_cons, Bool.and_eq_true] at hok
    have hstep := appendRaw_step log ts d hok.1
    have hrec := ih (log.appendRaw ts d true true).2
      (by rw [hstep.2.1, hfix]) hok.2
    simp only [appendList]
    rw [hrec, hstep.1, hstep.2.2, if_neg (by rw [hfix]; exact fun h => nomatch h)]
    simp only [List.map_cons, List.sum_cons, List.length_cons]
    ring

/-- C8: for a variable-size log, each `append_finish(size)` advances
`data.writePos` by exactly `size + len(gapData)` and writes the gap bytes
at the position reached after the payload; consequently, starting from a
freshly created variable-size log (`data.writePos = 0`), after any sequence
of completed (successful) appends `data.writePos` equals the sum of the
payload sizes plus the number of appends times `len(gapData)`. -/
theorem claim_C8 :
    (∀ (log : DataLogImpl) (sz : Nat) (tOk mOk : Bool),
      log.fixedSize = false →
      (log.appendRawFinish sz tOk mOk).data.writePos =
        log.data.writePos + sz + log.gapData.length) ∧
    (∀ (log : DataLogImpl) (sz : Nat) (tOk : Bool),
      log.fixedSize = false → log.data.mapOffset = 0 →
      readBytes (log.appendRawFinish sz tOk true).data.contents
        (log.data.writePos + sz) log.gapData.length = log.gapData) ∧
    (∀ (log : DataLogImpl) (es : List (Nat × Bytes)),
      log.fixedSize = false → log.data.writePos = 0 →
      ((appendList log es).1.all (fun b => b)) = true →
      (appendList log es).2.data.writePos =
        (es.map (fun e => e.2.length)).sum +
          es.length * log.gapData.length) := by
  refine ⟨fun log sz tOk mOk hfix => arf_dataPos log sz tOk mOk hfix,
    fun log sz tOk hfix hoff => arf_gap log sz tOk hfix hoff,
    fun log es hfix h0 hok => ?_⟩
  rw [appendList_dataPos es log hfix hok, h0]
  omega

/-- A freshly created variable-size log with 32-bit pointer records and gap
bytes `"##"` (the spec's S2 scenario). -/
def fiTimeVar : FileInfo :=
  { readOnly := false, writePos := 4096, fileSize := 4128,
    mapOffset := 0, mapGrowSize := 256, maxGrowSize := 1024,
    map := { mapped := true, size := 4128 }, contents := fun _ => 0 }

def fiDataVar : FileInfo :=
  { readOnly := false, writePos := 0, fileSize := 0,
    mapOffset := 0, mapGrowSize := 1024, maxGrowSize := 4096,
    map := { mapped := false, size := 0 }, contents := fun _ => 0 }

def logVar : DataLogImpl :=
  { dataType := [], dataLayout := [], recordSize := 16, fixedSize := false,
    gapData := [35, 35], lastTimestamp := 0, checkMonotonic := true,
    periodicFlush := 0, periodicFlushCount := 0,
    time := fiTimeVar, data := fiDataVar }

/-- C8 (witness): the theorem applied to the fresh variable-size log
`logVar` with `gapData = "##"`, one finish step of size 3, and the sequence
of appends `"a"`, `"bcd"` (payload sum 4, so final `data.writePos = 8`). -/
theorem claim_C8_witness :
    logVar.fixedSize = false ∧ logVar.data.mapOffset = 0 ∧
    logVar.data.writePos = 0 ∧
    (appendList logVar [(1, [97]), (2, [98, 99, 100])]).1.all
      (fun b => b) = true ∧
    (logVar.appendRawFinish 3 true true).data.writePos =
      logVar.data.writePos + 3 + logVar.gapData.length ∧
    readBytes (logVar.appendRawFinish 3 true true).data.contents
      (logVar.data.writePos + 3) logVar.gapData.length = logVar.gapData ∧
    (appendList logVar [(1, [97]), (2, [98, 99, 100])]).2.data.writePos =
      ([(1, [97]), (2, [98, 99, 100])].map
        (fun e : Nat × Bytes => e.2.length)).sum +
        [(1, [97]), (2, [98, 99, 100])].length * logVar.gapData.length :=
  ⟨rfl, rfl, rfl, by decide,
   claim_C8.1 logVar 3 true true rfl,
   claim_C8.2.1 logVar 3 true rfl rfl,
   claim_C8.2.2 logVar [(1, [97]), (2, [98, 99, 100])] rfl rfl (by decide)⟩

/-! ## Claim C1: read-after-append returns the written record -/

theorem ars_success_fixed (st : DataLogImpl) (ts sz : Nat) (tOk : Bool)
    (hfix : st.fixedSize = true) (hmo : st.time.mapOffset = 0)
    (hro : st.time.readOnly = false)
    (hmono : ¬(st.checkMonotonic = true ∧ ts ≤ st.lastTimestamp)) :
    (st.appendRawStart ts sz tOk true).1 =
      some (.timeP (st.time.writePos + kTimestampSize)) ∧
    (st.appendRawStart ts sz tOk true).2.time.contents =
      writeBytes st.time.contents st.time.writePos (toLE 8 ts) ∧
    (st.appendRawStart ts sz tOk true).2.data = st.data := by
  have hg := (gmo_fields st.time st.time.writePos st.recordSize tOk
    true).2.2.2.2
  have hm := gmo_mOk st.time st.time.writePos st.recordSize tOk
  simp only [DataLogImpl.appendRawStart, if_neg hmono, hro,
    Bool.false_eq_true, if_false, hm.2, hm.1, hmo, Nat.sub_zero, hfix,
    if_true, hg]
  exact ⟨trivial, trivial, trivial⟩

theorem ars_success_var (st : DataLogImpl) (ts sz : Nat) (tOk : Bool)
    (hfix : st.fixedSize = false) (hmo : st.time.mapOffset = 0)
    (hdo : st.data.mapOffset = 0) (hro : st.time.readOnly = false)
    (hmono : ¬(st.checkMonotonic = true ∧ ts ≤ st.lastTimestamp)) :
    (st.appendRawStart ts sz tOk true).1 =
      some (.dataP st.data.writePos) ∧
    (st.appendRawStart ts sz tOk true).2.time.contents =
      writeBytes (writeBytes st.time.contents st.time.writePos (toLE 8 ts))
        (st.time.writePos + kTimestampSize)
        (if st.recordSize = kLargePointerRecordSize
          then toLE 8 st.data.writePos ++ toLE 8 sz
          else toLE 4 st.data.writePos ++ toLE 4 sz) ∧
    (st.appendRawStart ts sz tOk true).2.data.contents =
      st.data.contents := by
  have hg := (gmo_fields st.time st.time.writePos st.recordSize tOk
    true).2.2.2.2
  have hm := gmo_mOk st.time st.time.writePos st.recordSize tOk
  have hg2 := (gmo_fields st.data st.data.writePos sz tOk true).2.2.2.2
  have hm2 := gmo_mOk st.data st.data.writePos sz tOk
  simp only [DataLogImpl.appendRawStart, if_neg hmono, hro,
    Bool.false_eq_true, if_false, hm.2, hm.1, hmo, Nat.sub_zero, hfix,
    hg, hm2.2, hm2.1, hdo, hg2]
  exact ⟨trivial, trivial, trivial⟩

theorem arf_time_frame (st : DataLogImpl) (sz : Nat) (tOk : Bool) :
    ∀ i, kHeaderSize ≤ i →
      (st.appendRawFinish sz tOk true).time.contents i =
        st.time.contents i := by
  intro i hi
  have hbuf := headerBuf_length
  simp only [DataLogImpl.appendRawFinish]
  split_ifs <;>
    simp_all [DataLogImpl.flush, DataLogImpl.writeHeader,
      FileInfo.write] <;>
    split_ifs <;>
    simp_all [gmo_ec_iff, (gmo_mOk _ _ _ _).1, (gmo_mOk _ _ _ _).2,
      gmo_fields] <;>
    rw [writeBytes_ge] <;>
    simp_all [(gmo_fields _ _ _ _ _).2.2.1, headerBuf_length]

theorem arf_data_frame (st : DataLogImpl) (sz : Nat) (tOk : Bool)
    (hdo : st.data.mapOffset = 0) :
    ∀ i, i < st.data.writePos + sz →
      (st.appendRawFinish sz tOk true).data.contents i =
        st.data.contents i := by
  intro i hi
  have hw := (fiWrite_mOk { st.data with writePos := st.data.writePos + sz }
    (st.data.writePos + sz) st.gapData tOk (by simpa using hdo)).1
  have hlt : ∀ c : Nat → Nat,
      writeBytes c (st.data.writePos + sz) st.gapData i = c i :=
    fun c => writeBytes_lt hi
  simp only [DataLogImpl.appendRawFinish]
  split_ifs <;>
    simp_all [DataLogImpl.flush, writeHeader_keeps]

/-- Reading a subrange equals slicing the read of the enclosing range. -/
theorem readBytes_slice (c : Nat → Nat) {T a b : Nat} (hab : a + b ≤ T) :
    readBytes c a b = ((readBytes c 0 T).drop a).take b := by
  have hT : T = a + (b + (T - (a + b))) := by omega
  rw [hT, readBytes_add, Nat.zero_add, readBytes_add]
  rw [List.drop_left' (readBytes_length c 0 a),
    List.take_append_of_le_length (by rw [readBytes_length]),
    List.take_of_length_le (le_of_eq (readBytes_length c a b))]

/-- The byte image of the data file after appending `es` with gap `g`:
payloads in order, each followed by the gap bytes. -/
def dataImage (g : Bytes) (es : List (Nat × Bytes)) : Bytes :=
  (es.map (fun e => e.2 ++ g)).flatten

/-- The data-file offset stored in record `k`: the image length of the
first `k` entries. -/
def offAt (g : Bytes) (es : List (Nat × Bytes)) (k : Nat) : Nat :=
  (dataImage g (es.take k)).length

theorem dataImage_nil (g : Bytes) : dataImage g [] = [] := rfl

theorem dataImage_cons (g : Bytes) (e : Nat × Bytes)
    (es : List (Nat × Bytes)) :
    dataImage g (e :: es) = (e.2 ++ g) ++ dataImage g es := by
  simp [dataImage]

theorem dataImage_append (g : Bytes) (es1 es2 : List (Nat × Bytes)) :
    dataImage g (es1 ++ es2) = dataImage g es1 ++ dataImage g es2 := by
  simp [dataImage]

theorem offAt_append (g : Bytes) (es1 es2 : List (Nat × Bytes)) (k : Nat)
    (hk : k ≤ es1.length) :
    offAt g (es1 ++ es2) k = offAt g es1 k := by
  simp [offAt, List.take_append_of_le_length hk]

theorem dataImage_slice (g : Bytes) :
    ∀ (es : List (Nat × Bytes)) (k : Nat) (hk : k < es.length),
      offAt g es k + (es.get ⟨k, hk⟩).2.length ≤ (dataImage g es).length ∧
      ((dataImage g es).drop (offAt g es k)).take
        (es.get ⟨k, hk⟩).2.length = (es.get ⟨k, hk⟩).2 := by
  intro es
  induction es with
  | nil =>
    intro k hk
    exact absurd hk (by simp)
  | cons e tl ih =>
    intro k hk
    cases k with
    | zero =>
      constructor
      · simp [offAt, dataImage_cons, dataImage_nil]
      · simp only [offAt, List.take_zero, dataImage_nil, List.length_nil,
          List.drop_zero, dataImage_cons, List.get]
        rw [List.append_assoc]
        exact List.take_left' rfl
    | succ k =>
      have hk' : k < tl.length := by simpa using hk
      have hoff : offAt g (e :: tl) (k + 1) =
          (e.2 ++ g).length + offAt g tl k := by
        simp [offAt, List.take_succ_cons, dataImage_cons]
        omega
      have ihk := ih k hk'
      constructor
      · rw [hoff, dataImage_cons]
        simp only [List.length_append, List.get_cons_succ]
        omega
      · rw [hoff, dataImage_cons, List.drop_append]
        simpa using ihk.2

theorem writeAt_keeps2 (log : DataLogImpl) (p : AppendPtr) (d : Bytes) :
    (log.writeAt p d).time.mapOffset = log.time.mapOffset ∧
    (log.writeAt p d).time.readOnly = log.time.readOnly ∧
    (log.writeAt p d).checkMonotonic = log.checkMonotonic ∧
    (log.writeAt p d).lastTimestamp = log.lastTimestamp := by
  cases p <;> simp [DataLogImpl.writeAt]

theorem arf_keeps2 (st : DataLogImpl) (sz : Nat) (tOk mOk : Bool) :
    (st.appendRawFinish sz tOk mOk).time.mapOffset = st.time.mapOffset ∧
    (st.appendRawFinish sz tOk mOk).time.readOnly = st.time.readOnly ∧
    (st.appendRawFinish sz tOk mOk).data.mapOffset = st.data.mapOffset := by
  simp only [DataLogImpl.appendRawFinish]
  split_ifs <;>
    simp_all [DataLogImpl.flush, writeHeader_keeps, fiWrite_fields]

theorem ars_keeps2 (log : DataLogImpl) (ts sz : Nat) (tOk mOk : Bool) :
    (log.appendRawStart ts sz tOk mOk).2.time.readOnly =
      log.time.readOnly ∧
    (log.appendRawStart ts sz tOk mOk).2.checkMonotonic =
      log.checkMonotonic := by
  have ht := (gmo_fields log.time log.time.writePos log.recordSize
    tOk mOk).1
  simp only [DataLogImpl.appendRawStart]
  split_ifs <;> simp [ht]

/-- Well-formedness of an open writable fixed-size log. -/
def GoodF (rs : Nat) (st : DataLogImpl) : Prop :=
  st.recordSize = rs ∧ st.fixedSize = true ∧ st.time.mapOffset = 0 ∧
  st.time.readOnly = false

/-- The time file stores records `es` (fixed-size layout): the write
position sits after the last record, and slot `k` holds the little-endian
timestamp followed by the payload. -/
def StoredF (rs : Nat) (es : List (Nat × Bytes)) (st : DataLogImpl) :
    Prop :=
  st.time.writePos = kHeaderSize + es.length * rs ∧
  ∀ k, (hk : k < es.length) →
    readBytes st.time.contents (kHeaderSize + k * rs) rs =
      toLE 8 (es.get ⟨k, hk⟩).1 ++ (es.get ⟨k, hk⟩).2

theorem step_fixed (rs : Nat) (st : DataLogImpl)
    (es : List (Nat × Bytes)) (ts : Nat) (d : Bytes)
    (hG : GoodF rs st) (hS : StoredF rs es st)
    (hd : d.length = rs - 8) (h8 : 8 ≤ rs)
    (hok : (st.appendRaw ts d true true).1 = true) :
    GoodF rs (st.appendRaw ts d true true).2 ∧
    StoredF rs (es ++ [(ts, d)]) (st.appendRaw ts d true true).2 := by
  obtain ⟨hrs, hfix, hmo, hro⟩ := hG
  have hnone : (st.appendRawStart ts d.length true true).1 ≠ none := by
    intro h
    rw [DataLogImpl.appendRaw] at hok
    rcases hs : st.appendRawStart ts d.length true true with ⟨o, st1⟩
    rw [hs] at h hok
    simp only at h
    subst h
    simp at hok
  have hmono : ¬(st.checkMonotonic = true ∧ ts ≤ st.lastTimestamp) :=
    fun hc => hnone
      ((ars_none_iff st ts d.length true true).mpr (Or.inl hc))
  have hsucc := ars_success_fixed st ts d.length true hfix hmo hro hmono
  rcases hs : st.appendRawStart ts d.length true true with ⟨o, st1⟩
  rw [hs] at hsucc
  simp only at hsucc
  obtain ⟨ho, hc1, hdata1⟩ := hsucc
  subst ho
  -- the appended state
  rw [DataLogImpl.appendRaw, hs]
  simp only
  set wp := st.time.writePos with hwp
  set st2 := st1.writeAt (AppendPtr.timeP (wp + kTimestampSize)) d with hst2
  set st3 := st2.appendRawFinish d.length true true with hst3
  have hfields := ars_fields st ts d.length true true
  rw [hs] at hfields
  simp only at hfields
  have hscal := ars_scalars st ts d.length true true
  rw [hs] at hscal
  simp only at hscal
  have hk2 := ars_keeps2 st ts d.length true true
  rw [hs] at hk2
  simp only at hk2
  have hwk := writeAt_keeps st1 (AppendPtr.timeP (wp + kTimestampSize)) d
  have hwk2 := writeAt_keeps2 st1 (AppendPtr.timeP (wp + kTimestampSize)) d
  have hfin := arf_scalars st2 d.length true true
  have hfin2 := arf_keeps2 st2 d.length true true
  -- st2's time contents
  have hc2 : st2.time.contents =
      writeBytes (writeBytes st.time.contents wp (toLE 8 ts))
        (wp + kTimestampSize) d := by
    rw [hst2]
    simp [DataLogImpl.writeAt, hc1]
  simp only [kTimestampSize] at hc2
  have hrs2 : st2.recordSize = rs := by
    rw [hwk.2.2.2.2.1, hfields.2.2, hrs]
  have hGout : GoodF rs st3 := by
    refine ⟨?_, ?_, ?_, ?_⟩
    · rw [hst3, (arf_scalars st2 d.length true true).2.2, hrs2]
    · rw [hst3, (arf_scalars st2 d.length true true).1, hwk.2.2.1,
        hscal.1, hfix]
    · rw [hst3, (arf_keeps2 st2 d.length true true).1, hwk2.1,
        hscal.2.2.2.1, hmo]
    · rw [hst3, (arf_keeps2 st2 d.length true true).2.1, hwk2.2.1,
        hk2.1, hro]
  have hwp3 : st3.time.writePos = wp + rs := by
    rw [hst3, arf_timePos, hwk.2.1, hfields.1, hrs2]
  have hframe : ∀ i, kHeaderSize ≤ i →
      st3.time.contents i = st2.time.contents i :=
    arf_time_frame st2 d.length true
  have hwpval : wp = kHeaderSize + es.length * rs := hS.1
  refine ⟨hGout, ?_, ?_⟩
  · rw [hwp3, hwpval]
    simp [List.length_append]
    ring
  · intro k hk
    simp only [List.length_append, List.length_cons, List.length_nil] at hk
    have hread3 : readBytes st3.time.contents (kHeaderSize + k * rs) rs =
        readBytes st2.time.contents (kHeaderSize + k * rs) rs := by
      apply readBytes_congr
      intro i hi _
      exact hframe i (by omega)
    rcases Nat.lt_or_ge k es.length with hlt | hge
    · -- an old record, untouched by the two writes at ≥ wp
      have hend : kHeaderSize + k * rs + rs ≤ wp := by
        rw [hwpval]
        have : k + 1 ≤ es.length := hlt
        calc kHeaderSize + k * rs + rs = kHeaderSize + (k + 1) * rs := by
              ring
          _ ≤ kHeaderSize + es.length * rs :=
              Nat.add_le_add_left (Nat.mul_le_mul_right rs this) _
      rw [hread3, hc2, readBytes_writeBytes_left (by omega),
        readBytes_writeBytes_left hend]
      have := hS.2 k hlt
      rw [this]
      congr 1 <;> rw [List.get_append_left]
    · -- the new record
      have hkeq : k = es.length := by omega
      subst hkeq
      rw [hread3, hc2, ← hwpval]
      have hsplit : rs = 8 + d.length := by omega
      rw [hsplit, readBytes_add]
      have h1 : readBytes
          (writeBytes (writeBytes st.time.contents wp (toLE 8 ts))
            (wp + 8) d) wp 8 =
          toLE 8 ts := by
        rw [readBytes_writeBytes_left (by omega)]
        have hself := readBytes_writeBytes_self st.time.contents wp
          (toLE 8 ts)
        rw [toLE_length] at hself
        exact hself
      have h2 : readBytes
          (writeBytes (writeBytes st.time.contents wp (toLE 8 ts))
            (wp + 8) d) (wp + 8) d.length = d :=
        readBytes_writeBytes_self _ _ d
      rw [h1, h2]
      congr 1
      · congr 1
        rw [List.get_append_right] <;> simp
      · rw [List.get_append_right] <;> simp

theorem appendList_fixed (rs : Nat) :
    ∀ (rest : List (Nat × Bytes)) (st : DataLogImpl)
      (done : List (Nat × Bytes)),
      GoodF rs st → StoredF rs done st → 8 ≤ rs →
      (∀ e ∈ rest, e.2.length = rs - 8) →
      ((appendList st rest).1.all (fun b => b)) = true →
      GoodF rs (appendList st rest).2 ∧
      StoredF rs (done ++ rest) (appendList st rest).2 := by
  intro rest
  induction rest with
  | nil =>
    intro st done hG hS _ _ _
    simpa [appendList] using ⟨hG, hS⟩
  | cons e tl ih =>
    intro st done hG hS h8 hlen hok
    obtain ⟨ts, d⟩ := e
    simp only [appendList, List.all_cons, Bool.and_eq_true] at hok
    have hstep := step_fixed rs st done ts d hG hS
      (hlen (ts, d) (List.mem_cons_self _ _)) h8 hok.1
    have hrec := ih (st.appendRaw ts d true true).2 (done ++ [(ts, d)])
      hstep.1 hstep.2 h8 (fun e he => hlen e (List.mem_cons_of_mem _ he))
      hok.2
    simp only [appendList]
    constructor
    · exact hrec.1
    · have : done ++ (ts, d) :: tl = (done ++ [(ts, d)]) ++ tl := by
        simp
      rw [this]
      exact hrec.2

theorem readback_fixed (rs : Nat) (st : DataLogImpl)
    (es : List (Nat × Bytes))
    (hG : GoodF rs st) (hS : StoredF rs es st) (h8 : 8 ≤ rs)
    (hlen : ∀ e ∈ es, e.2.length = rs - 8)
    (hts : ∀ e ∈ es, e.1 < 2 ^ 64) :
    ∀ k, (hk : k < es.length) →
      st.readRawVal k = ((es.get ⟨k, hk⟩).1, (es.get ⟨k, hk⟩).2) := by
  intro k hk
  have hslot := hS.2 k hk
  have hdl : (es.get ⟨k, hk⟩).2.length = rs - 8 :=
    hlen _ (es.get_mem k hk)
  have htsk : (es.get ⟨k, hk⟩).1 < 2 ^ 64 := hts _ (es.get_mem k hk)
  have hlenraw :
      (toLE 8 (es.get ⟨k, hk⟩).1 ++ (es.get ⟨k, hk⟩).2).length = rs := by
    simp only [List.length_append, toLE_length, hdl]
    omega
  rw [readRawVal_eq_pure]
  unfold readRawPure
  rw [hG.1, hG.2.2.1, Nat.sub_zero, hslot]
  rw [if_neg (by rw [hlenraw]; simp only [kTimestampSize]; omega)]
  simp only [hG.2.1, if_true]
  have hts8 : fromLE ((toLE 8 (es.get ⟨k, hk⟩).1 ++
      (es.get ⟨k, hk⟩).2).take kTimestampSize) = (es.get ⟨k, hk⟩).1 := by
    simp only [kTimestampSize]
    rw [List.take_left' (toLE_length 8 _), fromLE_toLE]
    exact Nat.mod_eq_of_lt htsk
  have hdrop : (toLE 8 (es.get ⟨k, hk⟩).1 ++
      (es.get ⟨k, hk⟩).2).drop kTimestampSize = (es.get ⟨k, hk⟩).2 := by
    simp only [kTimestampSize]
    exact List.drop_left' (toLE_length 8 _)
  rw [hts8, hdrop]

/-- Well-formedness of an open writable variable-size log. -/
def GoodV (rs : Nat) (g : Bytes) (st : DataLogImpl) : Prop :=
  st.recordSize = rs ∧ st.fixedSize = false ∧ st.gapData = g ∧
  st.time.mapOffset = 0 ∧ st.data.mapOffset = 0 ∧ st.time.readOnly = false

/-- The two files store records `es` (variable-size layout with `w`-byte
pointers): slot `k` holds the timestamp and the little-endian
(offset, length) pointer, and the data file holds the concatenation of
payloads and gap bytes. -/
def StoredV (rs w : Nat) (g : Bytes) (es : List (Nat × Bytes))
    (st : DataLogImpl) : Prop :=
  st.time.writePos = kHeaderSize + es.length * rs ∧
  st.data.writePos = (dataImage g es).length ∧
  readBytes st.data.contents 0 (dataImage g es).length = dataImage g es ∧
  ∀ k, (hk : k < es.length) →
    readBytes st.time.contents (kHeaderSize + k * rs) rs =
      toLE 8 (es.get ⟨k, hk⟩).1 ++
        (toLE w (offAt g es k) ++ toLE w (es.get ⟨k, hk⟩).2.length)

theorem offAt_total (g : Bytes) (es : List (Nat × Bytes)) :
    offAt g es es.length = (dataImage g es).length := by
  simp [offAt, List.take_length]

theorem dataImage_snoc (g : Bytes) (es : List (Nat × Bytes))
    (ts : Nat) (d : Bytes) :
    dataImage g (es ++ [(ts, d)]) = dataImage g es ++ (d ++ g) := by
  rw [dataImage_append]
  simp [dataImage]

theorem step_var (rs w : Nat) (g : Bytes) (st : DataLogImpl)
    (es : List (Nat × Bytes)) (ts : Nat) (d : Bytes)
    (hw : (rs = kLargePointerRecordSize ∧ w = 8) ∨
      (rs = kSmallPointerRecordSize ∧ w = 4))
    (hG : GoodV rs g st) (hS : StoredV rs w g es st)
    (hok : (st.appendRaw ts d true true).1 = true) :
    GoodV rs g (st.appendRaw ts d true true).2 ∧
    StoredV rs w g (es ++ [(ts, d)]) (st.appendRaw ts d true true).2 := by
  obtain ⟨hrs, hfix, hgap, hmo, hdo, hro⟩ := hG
  have hnone : (st.appendRawStart ts d.length true true).1 ≠ none := by
    intro h
    rw [DataLogImpl.appendRaw] at hok
    rcases hs : st.appendRawStart ts d.length true true with ⟨o, st1⟩
    rw [hs] at h hok
    simp only at h
    subst h
    simp at hok
  have hmono : ¬(st.checkMonotonic = true ∧ ts ≤ st.lastTimestamp) :=
    fun hc => hnone
      ((ars_none_iff st ts d.length true true).mpr (Or.inl hc))
  have hsucc := ars_success_var st ts d.length true hfix hmo hdo hro hmono
  rcases hs : st.appendRawStart ts d.length true true with ⟨o, st1⟩
  rw [hs] at hsucc
  simp only at hsucc
  obtain ⟨ho, hc1, hdc1⟩ := hsucc
  subst ho
  rw [DataLogImpl.appendRaw, hs]
  simp only
  set wp := st.time.writePos with hwpdef
  set D := st.data.writePos with hDdef
  have hptr : (if st.recordSize = kLargePointerRecordSize
      then toLE 8 D ++ toLE 8 d.length
      else toLE 4 D ++ toLE 4 d.length) =
      toLE w D ++ toLE w d.length := by
    rcases hw with ⟨h1, h2⟩ | ⟨h1, h2⟩ <;> subst h2 <;> rw [hrs, h1]
    · rw [if_pos rfl]
    · rw [if_neg (by decide)]
  rw [hptr] at hc1
  set st2 := st1.writeAt (AppendPtr.dataP D) d with hst2
  set st3 := st2.appendRawFinish d.length true true with hst3
  have hfields := ars_fields st ts d.length true true
  rw [hs] at hfields
  simp only at hfields
  have hscal := ars_scalars st ts d.length true true
  rw [hs] at hscal
  simp only at hscal
  have hk2 := ars_keeps2 st ts d.length true true
  rw [hs] at hk2
  simp only at hk2
  have hwk := writeAt_keeps st1 (AppendPtr.dataP D) d
  have hwk2 := writeAt_keeps2 st1 (AppendPtr.dataP D) d
  have hc2t : st2.time.contents =
      writeBytes (writeBytes st.time.contents wp (toLE 8 ts))
        (wp + 8) (toLE w D ++ toLE w d.length) := by
    rw [hst2]
    simp only [DataLogImpl.writeAt]
    rw [hc1]
    rfl
  have hc2d : st2.data.contents = writeBytes st.data.contents D d := by
    rw [hst2]
    simp only [DataLogImpl.writeAt]
    rw [hdc1]
  have hfix2 : st2.fixedSize = false := by
    rw [hwk.2.2.1, hscal.1, hfix]
  have hgap2 : st2.gapData = g := by
    rw [hwk.2.2.2.1, hscal.2.1, hgap]
  have hdo2 : st2.data.mapOffset = 0 := by
    rw [hwk.2.2.2.2.2, hscal.2.2.1, hdo]
  have hrs2 : st2.recordSize = rs := by
    rw [hwk.2.2.2.2.1, hfields.2.2, hrs]
  have hdwp2 : st2.data.writePos = D := by
    rw [hwk.1, hfields.2.1]
  have htwp2 : st2.time.writePos = wp := by
    rw [hwk.2.1, hfields.1]
  have hGout : GoodV rs g st3 := by
    refine ⟨?_, ?_, ?_, ?_, ?_, ?_⟩
    · rw [hst3, (arf_scalars st2 d.length true true).2.2, hrs2]
    · rw [hst3, (arf_scalars st2 d.length true true).1, hfix2]
    · rw [hst3, (arf_scalars st2 d.length true true).2.1, hgap2]
    · rw [hst3, (arf_keeps2 st2 d.length true true).1, hwk2.1,
        hscal.2.2.2.1, hmo]
    · rw [hst3, (arf_keeps2 st2 d.length true true).2.2, hdo2]
    · rw [hst3, (arf_keeps2 st2 d.length true true).2.1, hwk2.2.1,
        hk2.1, hro]
  have htframe : ∀ i, kHeaderSize ≤ i →
      st3.time.contents i = st2.time.contents i :=
    arf_time_frame st2 d.length true
  have hdframe : ∀ i, i < D + d.length →
      st3.data.contents i = st2.data.contents i := by
    intro i hi
    have := arf_data_frame st2 d.length true hdo2 i (by rw [hdwp2]; omega)
    exact this
  have hgapw : readBytes st3.data.contents (D + d.length) g.length = g := by
    have := arf_gap st2 d.length true hfix2 hdo2
    rw [hdwp2, hgap2] at this
    exact this
  have hwpval : wp = kHeaderSize + es.length * rs := hS.1
  have hDval : D = (dataImage g es).length := hS.2.1
  have himg : dataImage g (es ++ [(ts, d)]) =
      dataImage g es ++ (d ++ g) := dataImage_snoc g es ts d
  refine ⟨hGout, ?_, ?_, ?_, ?_⟩
  · -- time write position
    rw [hst3, arf_timePos, htwp2, hrs2, hwpval]
    simp [List.length_append]
    ring
  · -- data write position
    rw [hst3, arf_dataPos st2 d.length true true hfix2, hdwp2, hgap2,
      himg, hDval]
    simp
    omega
  · -- data image
    rw [himg]
    have hT : (dataImage g es ++ (d ++ g)).length =
        (dataImage g es).length + (d.length + g.length) := by
      simp
    rw [hT, readBytes_add, readBytes_add, Nat.zero_add, ← hDval]
    have hpart1 : readBytes st3.data.contents 0 D = dataImage g es := by
      have hcongr : readBytes st3.data.contents 0 D =
          readBytes st.data.contents 0 D := by
        apply readBytes_congr
        intro i _ hi
        rw [hdframe i (by omega), hc2d, writeBytes_lt (by omega)]
      rw [hcongr, hDval]
      exact hS.2.2.1
    have hpart2 : readBytes st3.data.contents D d.length = d := by
      have hcongr : readBytes st3.data.contents D d.length =
          readBytes st2.data.contents D d.length := by
        apply readBytes_congr
        intro i hi1 hi2
        exact hdframe i (by omega)
      rw [hcongr, hc2d, readBytes_writeBytes_self]
    rw [hpart1, hpart2, hgapw]
  · -- the record slots
    intro k hk
    simp only [List.length_append, List.length_cons, List.length_nil] at hk
    have hread3 : readBytes st3.time.contents (kHeaderSize + k * rs) rs =
        readBytes st2.time.contents (kHeaderSize + k * rs) rs := by
      apply readBytes_congr
      intro i hi _
      exact htframe i (by omega)
    rcases Nat.lt_or_ge k es.length with hlt | hge
    · have hend : kHeaderSize + k * rs + rs ≤ wp := by
        rw [hwpval]
        have h1 : k + 1 ≤ es.length := hlt
        calc kHeaderSize + k * rs + rs = kHeaderSize + (k + 1) * rs := by
              ring
          _ ≤ kHeaderSize + es.length * rs :=
              Nat.add_le_add_left (Nat.mul_le_mul_right rs h1) _
      rw [hread3, hc2t, readBytes_writeBytes_left (by omega),
        readBytes_writeBytes_left hend]
      rw [hS.2.2.2 k hlt]
      rw [offAt_append g es [(ts, d)] k (le_of_lt hlt)]
      congr 2 <;> rw [List.get_append_left]
    · have hkeq : k = es.length := by omega
      subst hkeq
      have hsplitlen : rs = 8 + (w + w) := by
        rcases hw with ⟨h1, h2⟩ | ⟨h1, h2⟩ <;> subst h2 <;>
          simp [h1, kLargePointerRecordSize, kSmallPointerRecordSize,
            kTimestampSize]
      rw [hread3, hc2t, ← hwpval, hsplitlen, readBytes_add]
      have h1 : readBytes
          (writeBytes (writeBytes st.time.contents wp (toLE 8 ts))
            (wp + 8) (toLE w D ++ toLE w d.length)) wp 8 =
          toLE 8 ts := by
        rw [readBytes_writeBytes_left (by omega)]
        have hself := readBytes_writeBytes_self st.time.contents wp
          (toLE 8 ts)
        rw [toLE_length] at hself
        exact hself
      have h2 : readBytes
          (writeBytes (writeBytes st.time.contents wp (toLE 8 ts))
            (wp + 8) (toLE w D ++ toLE w d.length)) (wp + 8) (w + w) =
          toLE w D ++ toLE w d.length := by
        have hself := readBytes_writeBytes_self
          (writeBytes st.time.contents wp (toLE 8 ts)) (wp + 8)
          (toLE w D ++ toLE w d.length)
        have hlenp : (toLE w D ++ toLE w d.length).length = w + w := by
          simp [toLE_length]
        rw [hlenp] at hself
        exact hself
      rw [h1, h2]
      have hofflast : offAt g (es ++ [(ts, d)]) es.length = D := by
        rw [offAt_append g es [(ts, d)] es.length (le_refl _),
          offAt_total, hDval]
      rw [hofflast]
      congr 2
      · rw [List.get_append_right] <;> simp
      · rw [List.get_append_right] <;> simp

theorem appendList_var (rs w : Nat) (g : Bytes) :
    ∀ (rest : List (Nat × Bytes)) (st : DataLogImpl)
      (done : List (Nat × Bytes)),
      ((rs = kLargePointerRecordSize ∧ w = 8) ∨
        (rs = kSmallPointerRecordSize ∧ w = 4)) →
      GoodV rs g st → StoredV rs w g done st →
      ((appendList st rest).1.all (fun b => b)) = true →
      GoodV rs g (appendList st rest).2 ∧
      StoredV rs w g (done ++ rest) (appendList st rest).2 := by
  intro rest
  induction rest with
  | nil =>
    intro st done _ hG hS _
    simpa [appendList] using ⟨hG, hS⟩
  | cons e tl ih =>
    intro st done hw hG hS hok
    obtain ⟨ts, d⟩ := e
    simp only [appendList, List.all_cons, Bool.and_eq_true] at hok
    have hstep := step_var rs w g st done ts d hw hG hS hok.1
    have hrec := ih (st.appendRaw ts d true true).2 (done ++ [(ts, d)])
      hw hstep.1 hstep.2 hok.2
    simp only [appendList]
    constructor
    · exact hrec.1
    · have : done ++ (ts, d) :: tl = (done ++ [(ts, d)]) ++ tl := by
        simp
      rw [this]
      exact hrec.2

theorem readback_var (rs w : Nat) (g : Bytes) (st : DataLogImpl)
    (es : List (Nat × Bytes))
    (hw : (rs = kLargePointerRecordSize ∧ w = 8) ∨
      (rs = kSmallPointerRecordSize ∧ w = 4))
    (hG : GoodV rs g st) (hS : StoredV rs w g es st)
    (hts : ∀ e ∈ es, e.1 < 2 ^ 64)
    (hT : (dataImage g es).length < 256 ^ w) :
    ∀ k, (hk : k < es.length) →
      st.readRawVal k = ((es.get ⟨k, hk⟩).1, (es.get ⟨k, hk⟩).2) := by
  intro k hk
  have hslot := hS.2.2.2 k hk
  have htsk : (es.get ⟨k, hk⟩).1 < 2 ^ 64 := hts _ (es.get_mem k hk)
  have hsl := dataImage_slice g es k hk
  have hoffb : offAt g es k < 256 ^ w := by
    have := hsl.1
    omega
  have hlenb : (es.get ⟨k, hk⟩).2.length < 256 ^ w := by
    have := hsl.1
    omega
  have himg := hS.2.2.1
  rw [readRawVal_eq_pure]
  unfold readRawPure
  rw [hG.1, hG.2.2.2.1, Nat.sub_zero, hslot]
  rcases hw with ⟨hrs, hwv⟩ | ⟨hrs, hwv⟩ <;> subst hwv <;> subst hrs
  · -- large pointers, w = 8
    rw [if_neg (by
      simp [toLE_length, kLargePointerRecordSize, kTimestampSize])]
    simp only [hG.2.1, Bool.false_eq_true, if_false, if_pos rfl]
    have hts8 : fromLE ((toLE 8 (es.get ⟨k, hk⟩).1 ++
        (toLE 8 (offAt g es k) ++
          toLE 8 (es.get ⟨k, hk⟩).2.length)).take kTimestampSize) =
        (es.get ⟨k, hk⟩).1 := by
      simp only [kTimestampSize]
      rw [List.take_left' (toLE_length 8 _), fromLE_toLE]
      exact Nat.mod_eq_of_lt htsk
    have hdrop8 : (toLE 8 (es.get ⟨k, hk⟩).1 ++
        (toLE 8 (offAt g es k) ++
          toLE 8 (es.get ⟨k, hk⟩).2.length)).drop kTimestampSize =
        toLE 8 (offAt g es k) ++ toLE 8 (es.get ⟨k, hk⟩).2.length := by
      simp only [kTimestampSize]
      exact List.drop_left' (toLE_length 8 _)
    have hoff8 : fromLE (((toLE 8 (es.get ⟨k, hk⟩).1 ++
        (toLE 8 (offAt g es k) ++
          toLE 8 (es.get ⟨k, hk⟩).2.length)).drop kTimestampSize).take 8) =
        offAt g es k := by
      rw [hdrop8, List.take_left' (toLE_length 8 _), fromLE_toLE]
      exact Nat.mod_eq_of_lt hoffb
    have hassoc : toLE 8 (es.get ⟨k, hk⟩).1 ++
        (toLE 8 (offAt g es k) ++ toLE 8 (es.get ⟨k, hk⟩).2.length) =
        (toLE 8 (es.get ⟨k, hk⟩).1 ++ toLE 8 (offAt g es k)) ++
          toLE 8 (es.get ⟨k, hk⟩).2.length := by
      rw [List.append_assoc]
    have hlen8 : fromLE (((toLE 8 (es.get ⟨k, hk⟩).1 ++
        (toLE 8 (offAt g es k) ++
          toLE 8 (es.get ⟨k, hk⟩).2.length)).drop
            (kTimestampSize + 8)).take 8) =
        (es.get ⟨k, hk⟩).2.length := by
      simp only [kTimestampSize]
      rw [hassoc, List.drop_left'
        (by simp [toLE_length] : (toLE 8 (es.get ⟨k, hk⟩).1 ++
          toLE 8 (offAt g es k)).length = 8 + 8)]
      rw [List.take_of_length_le (le_of_eq (toLE_length 8 _)), fromLE_toLE]
      exact Nat.mod_eq_of_lt hlenb
    rw [hts8, hoff8, hlen8, hG.2.2.2.2.1, Nat.sub_zero]
    rw [readBytes_slice st.data.contents hsl.1, himg, hsl.2]
    simp
  · -- small pointers, w = 4
    rw [if_neg (by
      simp [toLE_length, kSmallPointerRecordSize, kLargePointerRecordSize,
        kTimestampSize])]
    simp only [hG.2.1, Bool.false_eq_true, if_false]
    rw [if_neg (by decide : ¬(kSmallPointerRecordSize =
      kLargePointerRecordSize))]
    have hts8 : fromLE ((toLE 8 (es.get ⟨k, hk⟩).1 ++
        (toLE 4 (offAt g es k) ++
          toLE 4 (es.get ⟨k, hk⟩).2.length)).take kTimestampSize) =
        (es.get ⟨k, hk⟩).1 := by
      simp only [kTimestampSize]
      rw [List.take_left' (toLE_length 8 _), fromLE_toLE]
      exact Nat.mod_eq_of_lt htsk
    have hdrop8 : (toLE 8 (es.get ⟨k, hk⟩).1 ++
        (toLE 4 (offAt g es k) ++
          toLE 4 (es.get ⟨k, hk⟩).2.length)).drop kTimestampSize =
        toLE 4 (offAt g es k) ++ toLE 4 (es.get ⟨k, hk⟩).2.length := by
      simp only [kTimestampSize]
      exact List.drop_left' (toLE_length 8 _)
    have hoff4 : fromLE (((toLE 8 (es.get ⟨k, hk⟩).1 ++
        (toLE 4 (offAt g es k) ++
          toLE 4 (es.get ⟨k, hk⟩).2.length)).drop kTimestampSize).take 4) =
        offAt g es k := by
      rw [hdrop8, List.take_left' (toLE_length 4 _), fromLE_toLE]
      exact Nat.mod_eq_of_lt hoffb
    have hassoc : toLE 8 (es.get ⟨k, hk⟩).1 ++
        (toLE 4 (offAt g es k) ++ toLE 4 (es.get ⟨k, hk⟩).2.length) =
        (toLE 8 (es.get ⟨k, hk⟩).1 ++ toLE 4 (offAt g es k)) ++
          toLE 4 (es.get ⟨k, hk⟩).2.length := by
      rw [List.append_assoc]
    have hlen4 : fromLE (((toLE 8 (es.get ⟨k, hk⟩).1 ++
        (toLE 4 (offAt g es k) ++
          toLE 4 (es.get ⟨k, hk⟩).2.length)).drop
            (kTimestampSize + 4)).take 4) =
        (es.get ⟨k, hk⟩).2.length := by
      simp only [kTimestampSize]
      rw [hassoc, List.drop_left'
        (by simp [toLE_length] : (toLE 8 (es.get ⟨k, hk⟩).1 ++
          toLE 4 (offAt g es k)).length = 8 + 4)]
      rw [List.take_of_length_le (le_of_eq (toLE_length 4 _)), fromLE_toLE]
      exact Nat.mod_eq_of_lt hlenb
    rw [hts8, hoff4, hlen4, hG.2.2.2.2.1, Nat.sub_zero]
    rw [readBytes_slice st.data.contents hsl.1, himg, hsl.2]

/-- C1: for every sequence of successful appends on a fresh open log,
`ReadRaw(k)` returns exactly the timestamp passed to the `k`-th successful
append and a byte view equal, byte for byte, to the payload written between
that append's `AppendRawStart` and `AppendRawFinish` — for fixed-size logs
the bytes following the 8-byte little-endian timestamp in the record slot,
and for variable-size logs the bytes at the little-endian (offset, length)
pointer stored in the record slot, read back from the data file. -/
theorem claim_C1 (st0 : DataLogImpl) (es : List (Nat × Bytes)) :
    (∀ rs, GoodF rs st0 → StoredF rs [] st0 → 8 ≤ rs →
      (∀ e ∈ es, e.2.length = rs - 8) →
      (∀ e ∈ es, e.1 < 2 ^ 64) →
      ((appendList st0 es).1.all (fun b => b)) = true →
      ∀ k, (hk : k < es.length) →
        (appendList st0 es).2.readRawVal k =
          ((es.get ⟨k, hk⟩).1, (es.get ⟨k, hk⟩).2)) ∧
    (∀ rs w g, ((rs = kLargePointerRecordSize ∧ w = 8) ∨
        (rs = kSmallPointerRecordSize ∧ w = 4)) →
      GoodV rs g st0 → StoredV rs w g [] st0 →
      (∀ e ∈ es, e.1 < 2 ^ 64) →
      (dataImage g es).length < 256 ^ w →
      ((appendList st0 es).1.all (fun b => b)) = true →
      ∀ k, (hk : k < es.length) →
        (appendList st0 es).2.readRawVal k =
          ((es.get ⟨k, hk⟩).1, (es.get ⟨k, hk⟩).2)) := by
  constructor
  · intro rs hG hS h8 hlen hts hok k hk
    have hall := appendList_fixed rs es st0 [] hG hS h8 hlen hok
    rw [List.nil_append] at hall
    exact readback_fixed rs (appendList st0 es).2 es hall.1 hall.2 h8
      hlen hts k hk
  · intro rs w g hw hG hS hts hT hok k hk
    have hall := appendList_var rs w g es st0 [] hw hG hS hok
    rw [List.nil_append] at hall
    exact readback_var rs w g (appendList st0 es).2 es hw hall.1 hall.2
      hts hT k hk

def fiTimeF : FileInfo :=
  { readOnly := false, writePos := 4096, fileSize := 4128,
    mapOffset := 0, mapGrowSize := 256, maxGrowSize := 1024,
    map := { mapped := true, size := 4128 }, contents := fun _ => 0 }

def logF : DataLogImpl :=
  { dataType := [], dataLayout := [], recordSize := 16, fixedSize := true,
    gapData := [], lastTimestamp := 0, checkMonotonic := false,
    periodicFlush := 0, periodicFlushCount := 0,
    time := fiTimeF, data := fiDataEx }

/-- C1 (witness): the theorem applied to two concrete fresh logs.  On the
fixed-size `logF` (recordSize 16), appending timestamps 1 and 2 with 8-byte
payloads and reading back records 0 and 1 returns exactly what was
appended; on the variable-size `logVar` (small pointers, gap `"##"`),
appending payloads `"a"` and `"bcd"` and reading back does the same. -/
theorem claim_C1_witness :
    ((appendList logF [(1, List.replicate 8 7),
        (2, List.replicate 8 9)]).1.all (fun b => b) = true ∧
      (appendList logF [(1, List.replicate 8 7),
        (2, List.replicate 8 9)]).2.readRawVal 0 =
          (1, List.replicate 8 7) ∧
      (appendList logF [(1, List.replicate 8 7),
        (2, List.replicate 8 9)]).2.readRawVal 1 =
          (2, List.replicate 8 9)) ∧
    ((appendList logVar [(1, [97]), (2, [98, 99, 100])]).1.all
        (fun b => b) = true ∧
      (appendList logVar [(1, [97]), (2, [98, 99, 100])]).2.readRawVal 0 =
        (1, [97]) ∧
      (appendList logVar [(1, [97]), (2, [98, 99, 100])]).2.readRawVal 1 =
        (2, [98, 99, 100])) := by
  refine ⟨⟨by decide, ?_, ?_⟩, ⟨by decide, ?_, ?_⟩⟩
  · exact (claim_C1 logF [(1, List.replicate 8 7),
      (2, List.replicate 8 9)]).1 16 ⟨rfl, rfl, rfl, rfl⟩
      ⟨rfl, fun k hk => absurd hk (Nat.not_lt_zero k)⟩ (by decide)
      (by decide) (by decide) (by decide) 0 (by decide)
  · exact (claim_C1 logF [(1, List.replicate 8 7),
      (2, List.replicate 8 9)]).1 16 ⟨rfl, rfl, rfl, rfl⟩
      ⟨rfl, fun k hk => absurd hk (Nat.not_lt_zero k)⟩ (by decide)
      (by decide) (by decide) (by decide) 1 (by decide)
  · exact (claim_C1 logVar [(1, [97]), (2, [98, 99, 100])]).2 16 4
      [35, 35] (Or.inr ⟨rfl, rfl⟩) ⟨rfl, rfl, rfl, rfl, rfl, rfl⟩
      ⟨by decide, by decide, by decide,
        fun k hk => absurd hk (Nat.not_lt_zero k)⟩
      (by decide) (by decide) (by decide) 0 (by decide)
  · exact (claim_C1 logVar [(1, [97]), (2, [98, 99, 100])]).2 16 4
      [35, 35] (Or.inr ⟨rfl, rfl⟩) ⟨rfl, rfl, rfl, rfl, rfl, rfl⟩
      ⟨by decide, by decide, by decide,
        fun k hk => absurd hk (Nat.not_lt_zero k)⟩
      (by decide) (by decide) (by decide) 1 (by decide)

/-! ## Claim C6: header round-trip -/

/-- The seven header fields `ReadHeader` (DataLog.cpp:419-426) extracts. -/
structure ParsedHeader where
  dataType : Bytes
  dataLayout : Bytes
  recordSize : Nat
  fixedSize : Bool
  gapData : Bytes
  timeWritePos : Nat
  dataWritePos : Nat
  deriving Repr, DecidableEq

/-- Modelled from the spec: the JSON values the header object can hold
(strings, unsigned numbers, booleans); wpi/json.h is not under src/. -/
inductive JVal where
  | str (s : Bytes)
  | num (n : Nat)
  | boolean (b : Bool)
  deriving Repr, DecidableEq

/-- Modelled from the spec: JSON insignificant whitespace skipping. -/
def skipWs : Bytes → Bytes
  | [] => []
  | b :: r => if b = 32 ∨ b = 10 ∨ b = 9 ∨ b = 13 then skipWs r else b :: r

/-- Modelled from the spec: the value of one hex digit byte. -/
def hexVal (c : Nat) : Option Nat :=
  if 48 ≤ c ∧ c ≤ 57 then some (c - 48)
  else if 97 ≤ c ∧ c ≤ 102 then some (c - 87)
  else if 65 ≤ c ∧ c ≤ 70 then some (c - 55)
  else none

/-- Modelled from the spec: the single-character JSON string escapes. -/
def unesc (e : Nat) : Option Nat :=
  if e = 34 then some 34
  else if e = 92 then some 92
  else if e = 47 then some 47
  else if e = 98 then some 8
  else if e = 116 then some 9
  else if e = 110 then some 10
  else if e = 102 then some 12
  else if e = 114 then some 13
  else none

/-- Modelled from the spec: JSON string body parsing (after the opening
quote), unescaping `\\x`, and `\\uXXXX` for ASCII code points.  The first
argument is structural fuel (every step consumes at least one byte), so
the definition stays kernel-computable. -/
def parseStringGo : Nat → Bytes → Option (Bytes × Bytes)
  | 0, _ => none
  | f + 1, b =>
    match b with
    | [] => none
    | c :: r =>
      if c = 34 then some ([], r)
      else if c = 92 then
        match r with
        | [] => none
        | e :: r2 =>
          if e = 117 then
            match r2 with
            | d1 :: d2 :: d3 :: d4 :: r3 =>
              match hexVal d1, hexVal d2, hexVal d3, hexVal d4 with
              | some v1, some v2, some v3, some v4 =>
                if 4096 * v1 + 256 * v2 + 16 * v3 + v4 < 128 then
                  (parseStringGo f r3).map
                    (fun p =>
                      ((4096 * v1 + 256 * v2 + 16 * v3 + v4) :: p.1, p.2))
                else none
              | _, _, _, _ => none
            | _ => none
          else
            match unesc e with
            | some u => (parseStringGo f r2).map (fun p => (u :: p.1, p.2))
            | none => none
      else (parseStringGo f r).map (fun p => (c :: p.1, p.2))

/-- JSON string body parsing at its natural fuel. -/
def parseStringAux (b : Bytes) : Option (Bytes × Bytes) :=
  parseStringGo (b.length + 1) b

/-- Modelled from the spec: JSON unsigned-integer parsing (digit run with
an accumulator). -/
def parseNumAux : Bytes → Nat → Nat × Bytes
  | [], acc => (acc, [])
  | c :: r, acc =>
    if 48 ≤ c ∧ c ≤ 57 then parseNumAux r (10 * acc + (c - 48))
    else (acc, c :: r)

/-- Modelled from the spec: one JSON scalar value (string, unsigned
number, or boolean — the only value kinds the header object holds). -/
def parseValue (b : Bytes) : Option (JVal × Bytes) :=
  match skipWs b with
  | [] => none
  | c :: r =>
    if c = 34 then (parseStringAux r).map (fun p => (JVal.str p.1, p.2))
    else if 48 ≤ c ∧ c ≤ 57 then
      some (JVal.num (parseNumAux (c :: r) 0).1, (parseNumAux (c :: r) 0).2)
    else if c = 116 then
      match r with
      | 114 :: 117 :: 101 :: r2 => some (JVal.boolean true, r2)
      | _ => none
    else if c = 102 then
      match r with
      | 97 :: 108 :: 115 :: 101 :: r2 => some (JVal.boolean false, r2)
      | _ => none
    else none

/-- Modelled from the spec: the member list of a JSON object (after the
opening brace, at least one member); the first argument is structural
fuel, bounded by the input length since every member consumes bytes. -/
def parseMembers : Nat → Bytes → Option (List (Bytes × JVal) × Bytes)
  | 0, _ => none
  | f + 1, b =>
    match skipWs b with
    | 34 :: r =>
      match parseStringAux r with
      | none => none
      | some (key, r2) =>
        match skipWs r2 with
        | 58 :: r3 =>
          match parseValue r3 with
          | none => none
          | some (v, r4) =>
            match skipWs r4 with
            | 44 :: r5 =>
              (parseMembers f r5).map (fun p => ((key, v) :: p.1, p.2))
            | 125 :: r5 => some ([(key, v)], r5)
            | _ => none
        | _ => none
    | _ => none

/-- Modelled from the spec: `wpi::json::parse` on the stream contents, for
the top-level object the header file holds; trailing bytes after the
object (the zero padding and records) are not part of the parsed value. -/
def parseTopObject (b : Bytes) : Option (List (Bytes × JVal)) :=
  match skipWs b with
  | 123 :: r =>
    match skipWs r with
    | 125 :: _ => some []
    | _ => (parseMembers (b.length + 1) r).map Prod.fst
  | _ => none

/-- Modelled from the spec: `j.at(key)` member lookup. -/
def lookupJ (ms : List (Bytes × JVal)) (key : String) : Option JVal :=
  (ms.find? (fun m => m.1 == strB key)).map Prod.snd

/-- Modelled from the spec: `get<std::string>()`. -/
def jGetStr : Option JVal → Option Bytes
  | some (JVal.str s) => some s
  | _ => none

/-- Modelled from the spec: `get<unsigned>()`/`get<uint64_t>()` (numeric
only; the caller applies the destination-width truncation). -/
def jGetNum : Option JVal → Option Nat
  | some (JVal.num n) => some n
  | _ => none

/-- Modelled from the spec: `get<bool>()`. -/
def jGetBool : Option JVal → Option Bool
  | some (JVal.boolean b) => some b
  | _ => none

/-- The field extraction of `DataLogImpl::ReadHeader` (DataLog.cpp:406-432):
parse the JSON object, then read the seven keys with their types; any
parse error, non-object, missing key or wrong type yields `none`
(`wrong_protocol_type`).  `recordSize` narrows to `unsigned int` and the
write positions to `uint64_t`, as in the C++ member types. -/
def parseHeader (b : Bytes) : Option ParsedHeader :=
  match parseTopObject b with
  | none => none
  | some ms =>
    match jGetStr (lookupJ ms "dataType"), jGetStr (lookupJ ms "dataLayout"),
      jGetNum (lookupJ ms "recordSize"), jGetBool (lookupJ ms "fixedSize"),
      jGetStr (lookupJ ms "gapData"), jGetNum (lookupJ ms "timeWritePos"),
      jGetNum (lookupJ ms "dataWritePos") with
    | some dt, some dl, some rs, some fs, some gd, some tw, some dw =>
      some ⟨dt, dl, rs % 2 ^ 32, fs, gd, tw % 2 ^ 64, dw % 2 ^ 64⟩
    | _, _, _, _, _, _, _ => none

theorem skipWs_ws (b : Nat) (r : Bytes)
    (h : b = 32 ∨ b = 10 ∨ b = 9 ∨ b = 13) :
    skipWs (b :: r) = skipWs r := by
  simp [skipWs, h]

theorem skipWs_stop (b : Nat) (r : Bytes)
    (h : ¬(b = 32 ∨ b = 10 ∨ b = 9 ∨ b = 13)) :
    skipWs (b :: r) = b :: r := by
  simp only [skipWs, if_neg h]

theorem hexVal_hexDigit (n : Nat) (h : n < 16) :
    hexVal (hexDigit n) = some n := by
  unfold hexVal hexDigit
  split_ifs with h1 h2 h3 h4 <;> first
    | (congr 1; omega)
    | omega

theorem parseStringGo_fuel : ∀ (f : Nat) (b : Bytes) (f' : Nat),
    b.length < f → b.length < f' →
    parseStringGo f b = parseStringGo f' b := by
  intro f
  induction f with
  | zero =>
    intro b f' h1 _
    exact absurd h1 (Nat.not_lt_zero _)
  | succ f ih =>
    intro b f' h1 h2
    cases f' with
    | zero => exact absurd h2 (Nat.not_lt_zero _)
    | succ f' =>
      cases b with
      | nil => simp [parseStringGo]
      | cons c r =>
        by_cases h34 : c = 34
        · simp [parseStringGo, h34]
        · by_cases h92 : c = 92
          · subst h92
            cases r with
            | nil => simp [parseStringGo]
            | cons e r2 =>
              by_cases h117 : e = 117
              · subst h117
                rcases r2 with _ | ⟨d1, _ | ⟨d2, _ | ⟨d3, _ | ⟨d4, r3⟩⟩⟩⟩
                · simp [parseStringGo]
                · simp [parseStringGo]
                · simp [parseStringGo]
                · simp [parseStringGo]
                · have hr3 : r3.length < f := by
                    simp only [List.length_cons] at h1
                    omega
                  have hr3' : r3.length < f' := by
                    simp only [List.length_cons] at h2
                    omega
                  simp only [parseStringGo]
                  cases hexVal d1 <;> cases hexVal d2 <;> cases hexVal d3 <;>
                    cases hexVal d4 <;> try rfl
                  simp only []
                  split_ifs with hc
                  · rw [ih r3 f' hr3 hr3']
                  · rfl
              · cases hu : unesc e with
                | none => simp [parseStringGo, h117, hu]
                | some u =>
                  have hr2 : r2.length < f := by
                    simp only [List.length_cons] at h1
                    omega
                  have hr2' : r2.length < f' := by
                    simp only [List.length_cons] at h2
                    omega
                  simp [parseStringGo, h117, hu, ih r2 f' hr2 hr2']
          · have hr : r.length < f := by
              simp only [List.length_cons] at h1
              omega
            have hr' : r.length < f' := by
              simp only [List.length_cons] at h2
              omega
            simp only [parseStringGo, if_neg h34, if_neg h92]
            rw [ih r f' hr hr']

theorem psa_close (r : Bytes) : parseStringAux (34 :: r) = some ([], r) := by
  simp [parseStringAux, parseStringGo]

theorem psa_esc (e u : Nat) (r : Bytes) (hu : unesc e = some u)
    (h117 : e ≠ 117) :
    parseStringAux (92 :: e :: r) =
      (parseStringAux r).map (fun p => (u :: p.1, p.2)) := by
  have hfuel : parseStringGo (r.length + 1 + 1) r = parseStringAux r := by
    rw [parseStringAux]
    exact parseStringGo_fuel _ r _ (by omega) (by omega)
  obtain ⟨x, hx⟩ : ∃ x, parseStringAux r = x := ⟨_, rfl⟩
  rw [hx] at hfuel ⊢
  conv_lhs => rw [parseStringAux]
  simp only [List.length_cons]
  rw [parseStringGo.eq_def]
  simp [hu, h117, hfuel]

theorem psa_u (d1 d2 d3 d4 v1 v2 v3 v4 : Nat) (r : Bytes)
    (h1 : hexVal d1 = some v1) (h2 : hexVal d2 = some v2)
    (h3 : hexVal d3 = some v3) (h4 : hexVal d4 = some v4)
    (hlt : 4096 * v1 + 256 * v2 + 16 * v3 + v4 < 128) :
    parseStringAux (92 :: 117 :: d1 :: d2 :: d3 :: d4 :: r) =
      (parseStringAux r).map
        (fun p => ((4096 * v1 + 256 * v2 + 16 * v3 + v4) :: p.1, p.2)) := by
  have hfuel : parseStringGo (r.length + 1 + 1 + 1 + 1 + 1 + 1) r =
      parseStringAux r := by
    rw [parseStringAux]
    exact parseStringGo_fuel _ r _ (by omega) (by omega)
  obtain ⟨x, hx⟩ : ∃ x, parseStringAux r = x := ⟨_, rfl⟩
  rw [hx] at hfuel ⊢
  conv_lhs => rw [parseStringAux]
  simp only [List.length_cons]
  rw [parseStringGo.eq_def]
  simp [h1, h2, h3, h4, hlt, hfuel]

theorem psa_plain (c : Nat) (r : Bytes) (h34 : c ≠ 34) (h92 : c ≠ 92) :
    parseStringAux (c :: r) =
      (parseStringAux r).map (fun p => (c :: p.1, p.2)) := by
  obtain ⟨x, hx⟩ : ∃ x, parseStringAux r = x := ⟨_, rfl⟩
  have hfuel : parseStringGo (r.length + 1) r = x := by
    rw [← hx, parseStringAux]
  rw [hx]
  conv_lhs => rw [parseStringAux]
  simp only [List.length_cons]
  rw [parseStringGo.eq_def]
  simp [h34, h92, hfuel]

theorem escape_parse : ∀ (s : Bytes), (∀ b ∈ s, b < 128) → ∀ (rest : Bytes),
    parseStringAux (escape s ++ (34 :: rest)) = some (s, rest) := by
  intro s
  induction s with
  | nil =>
    intro _ rest
    simp only [escape, List.map_nil, List.flatten_nil, List.nil_append]
    exact psa_close rest
  | cons b tl ih =>
    intro hb rest
    have hb128 : b < 128 := hb b (List.mem_cons_self _ _)
    have ihtl := ih (fun c hc => hb c (List.mem_cons_of_mem _ hc)) rest
    have hesc : escape (b :: tl) = escByte b ++ escape tl := by
      simp [escape]
    rw [hesc, List.append_assoc]
    unfold escByte
    split_ifs with h34 h92 h8 h9 h10 h12 h13 hlt
    · subst h34
      simp only [List.cons_append, List.nil_append]
      rw [psa_esc 34 34 _ rfl (by omega), ihtl]
      rfl
    · subst h92
      simp only [List.cons_append, List.nil_append]
      rw [psa_esc 92 92 _ rfl (by omega), ihtl]
      rfl
    · subst h8
      simp only [List.cons_append, List.nil_append]
      rw [psa_esc 98 8 _ rfl (by omega), ihtl]
      rfl
    · subst h9
      simp only [List.cons_append, List.nil_append]
      rw [psa_esc 116 9 _ rfl (by omega), ihtl]
      rfl
    · subst h10
      simp only [List.cons_append, List.nil_append]
      rw [psa_esc 110 10 _ rfl (by omega), ihtl]
      rfl
    · subst h12
      simp only [List.cons_append, List.nil_append]
      rw [psa_esc 102 12 _ rfl (by omega), ihtl]
      rfl
    · subst h13
      simp only [List.cons_append, List.nil_append]
      rw [psa_esc 114 13 _ rfl (by omega), ihtl]
      rfl
    · simp only [List.cons_append, List.nil_append]
      rw [psa_u 48 48 (hexDigit (b / 16)) (hexDigit (b % 16)) 0 0
        (b / 16) (b % 16) _ rfl rfl
        (hexVal_hexDigit (b / 16) (by omega))
        (hexVal_hexDigit (b % 16) (by omega)) (by omega)]
      have hval : 4096 * 0 + 256 * 0 + 16 * (b / 16) + b % 16 = b := by
        omega
      rw [ihtl]
      have hval2 : 16 * (b / 16) + b % 16 = b := by omega
      simp [hval2]
    · simp only [List.cons_append, List.nil_append]
      rw [psa_plain b _ (by omega) (by omega), ihtl]
      rfl

theorem natToDecAux_append : ∀ (f n : Nat) (acc : Bytes),
    natToDecAux f n acc = natToDecAux f n [] ++ acc := by
  intro f
  induction f with
  | zero =>
    intro n acc
    cases n <;> simp [natToDecAux]
  | succ f ih =>
    intro n acc
    cases n with
    | zero => simp [natToDecAux]
    | succ n =>
      simp only [natToDecAux]
      rw [ih ((n + 1) / 10) ((48 + (n + 1) % 10) :: acc),
        ih ((n + 1) / 10) [48 + (n + 1) % 10]]
      simp

theorem natToDecAux_fuel : ∀ (n f f' : Nat), n ≤ f → n ≤ f' →
    natToDecAux f n [] = natToDecAux f' n [] := by
  intro n
  induction n using Nat.strong_induction_on with
  | _ n ih =>
    intro f f' h1 h2
    cases n with
    | zero => simp [natToDecAux]
    | succ n =>
      cases f with
      | zero => omega
      | succ f =>
        cases f' with
        | zero => omega
        | succ f' =>
          simp only [natToDecAux]
          rw [natToDecAux_append f, natToDecAux_append f']
          have hq : (n + 1) / 10 < n + 1 := Nat.div_lt_self (by omega)
            (by omega)
          rw [ih ((n + 1) / 10) hq f f' (by omega) (by omega)]

theorem natToDec_cons (n : Nat) (hn : n ≠ 0) :
    natToDec n =
      (if n / 10 = 0 then [] else natToDec (n / 10)) ++ [48 + n % 10] := by
  unfold natToDec
  rw [if_neg hn]
  obtain ⟨m, rfl⟩ : ∃ m, n = m + 1 := ⟨n - 1, by omega⟩
  simp only [natToDecAux]
  rw [natToDecAux_append]
  by_cases hq : (m + 1) / 10 = 0
  · simp [hq, natToDecAux]
  · rw [if_neg hq, if_neg hq]
    rw [natToDecAux_fuel ((m + 1) / 10) m ((m + 1) / 10)
      (by omega) (le_refl _)]

theorem natToDec_digits : ∀ n, ∀ c ∈ natToDec n, 48 ≤ c ∧ c ≤ 57 := by
  intro n
  induction n using Nat.strong_induction_on with
  | _ n ih =>
    intro c hc
    by_cases hn : n = 0
    · subst hn
      simp [natToDec] at hc
      omega
    · rw [natToDec_cons n hn] at hc
      rcases List.mem_append.mp hc with h | h
      · by_cases hq : n / 10 = 0
        · rw [if_pos hq] at h
          simp at h
        · rw [if_neg hq] at h
          exact ih (n / 10) (Nat.div_lt_self (by omega) (by omega)) c h
      · have hcval : c = 48 + n % 10 := by simpa using h
        have hmod9 : n % 10 ≤ 9 := by omega
        omega

theorem natToDec_ne_nil (n : Nat) : natToDec n ≠ [] := by
  by_cases hn : n = 0
  · subst hn
    simp [natToDec]
  · rw [natToDec_cons n hn]
    simp

theorem parseNumAux_digits : ∀ (ds rest : Bytes) (acc : Nat),
    (∀ c ∈ ds, 48 ≤ c ∧ c ≤ 57) →
    parseNumAux (ds ++ rest) acc =
      parseNumAux rest (ds.foldl (fun a c => 10 * a + (c - 48)) acc) := by
  intro ds
  induction ds with
  | nil => intro rest acc _; simp
  | cons c ds ih =>
    intro rest acc hds
    have hc := hds c (List.mem_cons_self _ _)
    simp only [List.cons_append, parseNumAux, if_pos hc, List.foldl_cons]
    exact ih rest (10 * acc + (c - 48))
      (fun x hx => hds x (List.mem_cons_of_mem _ hx))

theorem parseNumAux_stop (rest : Bytes) (acc : Nat)
    (h : ∀ c r', rest = c :: r' → ¬(48 ≤ c ∧ c ≤ 57)) :
    parseNumAux rest acc = (acc, rest) := by
  cases rest with
  | nil => rfl
  | cons c r' => simp [parseNumAux, h c r' rfl]

theorem natToDec_foldl : ∀ (n : Nat) (acc : Nat),
    (natToDec n).foldl (fun a c => 10 * a + (c - 48)) acc =
      acc * 10 ^ (natToDec n).length + n := by
  intro n
  induction n using Nat.strong_induction_on with
  | _ n ih =>
    intro acc
    by_cases hn : n = 0
    · subst hn
      simp [natToDec]
      omega
    · rw [natToDec_cons n hn]
      by_cases hq : n / 10 = 0
      · rw [if_pos hq]
        have hmod : n % 10 = n := by omega
        simp [List.foldl_cons]
        omega
      · rw [if_neg hq]
        rw [List.foldl_append,
          ih (n / 10) (Nat.div_lt_self (by omega) (by omega)) acc]
        simp only [List.foldl_cons, List.foldl_nil, List.length_append,
          List.length_cons, List.length_nil]
        have h48 : 48 + n % 10 - 48 = n % 10 := by omega
        rw [h48, pow_succ]
        have hd : 10 * (n / 10) + n % 10 = n := by omega
        calc 10 * (acc * 10 ^ (natToDec (n / 10)).length + n / 10) + n % 10
            = acc * (10 ^ (natToDec (n / 10)).length * 10) +
              (10 * (n / 10) + n % 10) := by ring
          _ = acc * (10 ^ (natToDec (n / 10)).length * 10) + n := by
              rw [hd]

theorem parseValue_num (n : Nat) (rest : Bytes)
    (h : ∀ c r', rest = c :: r' → ¬(48 ≤ c ∧ c ≤ 57)) :
    parseValue (32 :: (natToDec n ++ rest)) = some (JVal.num n, rest) := by
  obtain ⟨c, r', hcr⟩ : ∃ c r', natToDec n = c :: r' := by
    cases hh : natToDec n with
    | nil => exact absurd hh (natToDec_ne_nil n)
    | cons c r' => exact ⟨c, r', rfl⟩
  have hcd : 48 ≤ c ∧ c ≤ 57 :=
    natToDec_digits n c (by rw [hcr]; exact List.mem_cons_self _ _)
  have hnum : parseNumAux (natToDec n ++ rest) 0 = (n, rest) := by
    rw [parseNumAux_digits (natToDec n) rest 0 (natToDec_digits n),
      parseNumAux_stop rest _ h, natToDec_foldl]
    simp
  unfold parseValue
  rw [skipWs_ws 32 _ (by omega), hcr, List.cons_append,
    skipWs_stop c _ (by omega)]
  simp only [← List.cons_append, ← hcr, hnum]
  rw [if_neg (by omega), if_pos hcd]

theorem parseValue_str (s : Bytes) (rest : Bytes) (hs : ∀ b ∈ s, b < 128) :
    parseValue (32 :: (quoteStr s ++ rest)) = some (JVal.str s, rest) := by
  have hp := escape_parse s hs rest
  unfold parseValue quoteStr
  rw [List.cons_append, skipWs_ws 32 _ (by omega),
    skipWs_stop 34 _ (by omega)]
  simp only [List.append_assoc, List.cons_append, List.nil_append]
  simp [hp]

theorem parseValue_bool (v : Bool) (rest : Bytes) :
    parseValue (32 :: (boolB v ++ rest)) = some (JVal.boolean v, rest) := by
  cases v
  · have h : boolB false = [102, 97, 108, 115, 101] := by decide
    rw [h]
    simp only [List.cons_append, List.nil_append]
    rw [parseValue, skipWs_ws 32 _ (by omega),
      skipWs_stop 102 _ (by omega)]
    rfl
  · have h : boolB true = [116, 114, 117, 101] := by decide
    rw [h]
    simp only [List.cons_append, List.nil_append]
    rw [parseValue, skipWs_ws 32 _ (by omega),
      skipWs_stop 116 _ (by omega)]
    rfl

theorem parseMembers_entry (f : Nat) (key : String) (vB : Bytes)
    (jv : JVal) (rest : Bytes) (hkey : ∀ b ∈ strB key, b < 128)
    (hv : parseValue (32 :: (vB ++ rest)) = some (jv, rest)) :
    parseMembers (f + 1) (entryB key vB ++ rest) =
      match skipWs rest with
      | 44 :: r5 =>
        (parseMembers f r5).map (fun p => ((strB key, jv) :: p.1, p.2))
      | 125 :: r5 => some ([(strB key, jv)], r5)
      | _ => none := by
  have hstr := escape_parse (strB key) hkey (58 :: 32 :: (vB ++ rest))
  simp only [entryB, quoteStr, List.append_assoc, List.cons_append,
    List.nil_append]
  simp only [parseMembers]
  rw [skipWs_ws 10 _ (by omega), skipWs_ws 32 _ (by omega),
    skipWs_stop 34 _ (by omega)]
  simp only [hstr]
  rw [skipWs_stop 58 _ (by omega)]
  simp only [hv]

/-- The byte layout of the members after the first one: a comma before
each further member, then the closing bytes. -/
def chainSep (tail : Bytes) : List (String × Bytes × JVal) → Bytes
  | [] => tail
  | it :: its => 44 :: (entryB it.1 it.2.1 ++ chainSep tail its)

theorem parseMembers_chain : ∀ (its : List (String × Bytes × JVal))
    (it : String × Bytes × JVal) (f : Nat) (T : Bytes),
    its.length < f →
    (∀ x ∈ it :: its, ∀ b ∈ strB x.1, b < 128) →
    (∀ x ∈ it :: its, ∀ rest : Bytes,
        rest.head? = some 44 ∨ rest.head? = some 10 →
        parseValue (32 :: (x.2.1 ++ rest)) = some (x.2.2, rest)) →
    parseMembers f (entryB it.1 it.2.1 ++ chainSep (10 :: 125 :: T) its) =
      some ((it :: its).map (fun x => (strB x.1, x.2.2)), T) := by
  intro its
  induction its with
  | nil =>
    intro it f T hf hkey hval
    cases f with
    | zero => omega
    | succ f =>
      rw [chainSep, parseMembers_entry f it.1 it.2.1 it.2.2
        (10 :: 125 :: T) (hkey it (List.mem_cons_self _ _))
        (hval it (List.mem_cons_self _ _) (10 :: 125 :: T) (Or.inr rfl))]
      rw [skipWs_ws 10 _ (by omega), skipWs_stop 125 _ (by omega)]
      simp
  | cons it2 its ih =>
    intro it f T hf hkey hval
    cases f with
    | zero => omega
    | succ f =>
      rw [chainSep, parseMembers_entry f it.1 it.2.1 it.2.2
        (44 :: (entryB it2.1 it2.2.1 ++ chainSep (10 :: 125 :: T) its))
        (hkey it (List.mem_cons_self _ _))
        (hval it (List.mem_cons_self _ _) _ (Or.inl rfl))]
      rw [skipWs_stop 44 _ (by omega)]
      have hrec := ih it2 f T
        (by simp only [List.length_cons] at hf; omega)
        (fun x hx => hkey x (List.mem_cons_of_mem _ hx))
        (fun x hx => hval x (List.mem_cons_of_mem _ hx))
      simp [hrec]

theorem lookupJ_cons (k : Bytes) (v : JVal) (ms : List (Bytes × JVal))
    (key : String) :
    lookupJ ((k, v) :: ms) key =
      if (k == strB key) = true then some v else lookupJ ms key := by
  by_cases h : (k == strB key) = true <;>
    simp [lookupJ, List.find?_cons, h]

theorem skipWs_entry (k : String) (v C : Bytes) :
    skipWs (entryB k v ++ C) =
      34 :: (escape (strB k) ++ (34 :: 58 :: 32 :: (v ++ C))) := by
  simp only [entryB, quoteStr, List.append_assoc, List.cons_append,
    List.nil_append]
  rw [skipWs_ws 10 _ (by omega), skipWs_ws 32 _ (by omega),
    skipWs_stop 34 _ (by omega)]

theorem parseHeader_headerBuf (log : DataLogImpl)
    (hdt : ∀ b ∈ log.dataType, b < 128)
    (hdl : ∀ b ∈ log.dataLayout, b < 128)
    (hgd : ∀ b ∈ log.gapData, b < 128)
    (hfit : (headerJson log ++ [10]).length ≤ kHeaderSize) :
    parseHeader (headerBuf log) =
      some ⟨log.dataType, log.dataLayout, log.recordSize % 2 ^ 32,
        log.fixedSize, log.gapData,
        (log.time.mapOffset + log.time.writePos) % 2 ^ 64,
        (log.data.mapOffset + log.data.writePos) % 2 ^ 64⟩ := by
  have hbuf : headerBuf log = (headerJson log ++ [10]) ++
      List.replicate (kHeaderSize - (headerJson log ++ [10]).length) 0 := by
    rw [headerBuf, resizeTo, List.take_of_length_le hfit]
  have hshape : headerBuf log = 123 ::
      (entryB "dataLayout" (quoteStr log.dataLayout) ++
        chainSep (10 :: 125 ::
          (10 :: List.replicate
            (kHeaderSize - (headerJson log ++ [10]).length) 0))
          [("dataType", quoteStr log.dataType, JVal.str log.dataType),
           ("dataWritePos",
             natToDec (log.data.mapOffset + log.data.writePos),
             JVal.num (log.data.mapOffset + log.data.writePos)),
           ("fixedSize", boolB log.fixedSize,
             JVal.boolean log.fixedSize),
           ("gapData", quoteStr log.gapData, JVal.str log.gapData),
           ("recordSize", natToDec log.recordSize,
             JVal.num log.recordSize),
           ("timeWritePos",
             natToDec (log.time.mapOffset + log.time.writePos),
             JVal.num (log.time.mapOffset + log.time.writePos))]) := by
    rw [hbuf]
    simp [headerJson, chainSep, List.append_assoc]
  have hkeys : ∀ x ∈ (("dataLayout", quoteStr log.dataLayout,
        JVal.str log.dataLayout) ::
      [("dataType", quoteStr log.dataType, JVal.str log.dataType),
       ("dataWritePos", natToDec (log.data.mapOffset + log.data.writePos),
         JVal.num (log.data.mapOffset + log.data.writePos)),
       ("fixedSize", boolB log.fixedSize, JVal.boolean log.fixedSize),
       ("gapData", quoteStr log.gapData, JVal.str log.gapData),
       ("recordSize", natToDec log.recordSize, JVal.num log.recordSize),
       ("timeWritePos", natToDec (log.time.mapOffset + log.time.writePos),
         JVal.num (log.time.mapOffset + log.time.writePos))]),
      ∀ b ∈ strB x.1, b < 128 := by
    intro x hx
    simp only [List.mem_cons, List.not_mem_nil, or_false] at hx
    rcases hx with rfl | rfl | rfl | rfl | rfl | rfl | rfl
    · exact (by decide : ∀ b ∈ strB "dataLayout", b < 128)
    · exact (by decide : ∀ b ∈ strB "dataType", b < 128)
    · exact (by decide : ∀ b ∈ strB "dataWritePos", b < 128)
    · exact (by decide : ∀ b ∈ strB "fixedSize", b < 128)
    · exact (by decide : ∀ b ∈ strB "gapData", b < 128)
    · exact (by decide : ∀ b ∈ strB "recordSize", b < 128)
    · exact (by decide : ∀ b ∈ strB "timeWritePos", b < 128)
  have hvals : ∀ x ∈ (("dataLayout", quoteStr log.dataLayout,
        JVal.str log.dataLayout) ::
      [("dataType", quoteStr log.dataType, JVal.str log.dataType),
       ("dataWritePos", natToDec (log.data.mapOffset + log.data.writePos),
         JVal.num (log.data.mapOffset + log.data.writePos)),
       ("fixedSize", boolB log.fixedSize, JVal.boolean log.fixedSize),
       ("gapData", quoteStr log.gapData, JVal.str log.gapData),
       ("recordSize", natToDec log.recordSize, JVal.num log.recordSize),
       ("timeWritePos", natToDec (log.time.mapOffset + log.time.writePos),
         JVal.num (log.time.mapOffset + log.time.writePos))]),
      ∀ rest : Bytes, rest.head? = some 44 ∨ rest.head? = some 10 →
        parseValue (32 :: (x.2.1 ++ rest)) = some (x.2.2, rest) := by
    have hnum : ∀ (n : Nat) (rest : Bytes),
        rest.head? = some 44 ∨ rest.head? = some 10 →
        parseValue (32 :: (natToDec n ++ rest)) =
          some (JVal.num n, rest) := by
      intro n rest hrest
      refine parseValue_num n rest ?_
      intro c r' hcr
      subst hcr
      simp only [List.head?_cons, Option.some.injEq] at hrest
      omega
    intro x hx
    simp only [List.mem_cons, List.not_mem_nil, or_false] at hx
    rcases hx with rfl | rfl | rfl | rfl | rfl | rfl | rfl
    · exact fun rest _ => parseValue_str _ rest hdl
    · exact fun rest _ => parseValue_str _ rest hdt
    · exact hnum _
    · exact fun rest _ => parseValue_bool _ rest
    · exact fun rest _ => parseValue_str _ rest hgd
    · exact hnum _
    · exact hnum _
  have hchain := parseMembers_chain
    [("dataType", quoteStr log.dataType, JVal.str log.dataType),
     ("dataWritePos", natToDec (log.data.mapOffset + log.data.writePos),
       JVal.num (log.data.mapOffset + log.data.writePos)),
     ("fixedSize", boolB log.fixedSize, JVal.boolean log.fixedSize),
     ("gapData", quoteStr log.gapData, JVal.str log.gapData),
     ("recordSize", natToDec log.recordSize, JVal.num log.recordSize),
     ("timeWritePos", natToDec (log.time.mapOffset + log.time.writePos),
       JVal.num (log.time.mapOffset + log.time.writePos))]
    ("dataLayout", quoteStr log.dataLayout, JVal.str log.dataLayout)
    (kHeaderSize + 1)
    (10 :: List.replicate (kHeaderSize - (headerJson log ++ [10]).length) 0)
    (by simp [kHeaderSize]) hkeys hvals
  have htop : parseTopObject (headerBuf log) =
      some [(strB "dataLayout", JVal.str log.dataLayout),
        (strB "dataType", JVal.str log.dataType),
        (strB "dataWritePos",
          JVal.num (log.data.mapOffset + log.data.writePos)),
        (strB "fixedSize", JVal.boolean log.fixedSize),
        (strB "gapData", JVal.str log.gapData),
        (strB "recordSize", JVal.num log.recordSize),
        (strB "timeWritePos",
          JVal.num (log.time.mapOffset + log.time.writePos))] := by
    rw [parseTopObject, headerBuf_length log, hshape,
      skipWs_stop 123 _ (by omega)]
    simp only [skipWs_entry]
    simp only [hchain]
    simp
  rw [parseHeader, htop]
  have hbq_dataLayout_dataLayout : (strB "dataLayout" == strB "dataLayout") = true := by decide
  have hbq_dataLayout_dataType : (strB "dataLayout" == strB "dataType") = false := by decide
  have hbq_dataType_dataType : (strB "dataType" == strB "dataType") = true := by decide
  have hbq_dataLayout_dataWritePos : (strB "dataLayout" == strB "dataWritePos") = false := by decide
  have hbq_dataType_dataWritePos : (strB "dataType" == strB "dataWritePos") = false := by decide
  have hbq_dataWritePos_dataWritePos : (strB "dataWritePos" == strB "dataWritePos") = true := by decide
  have hbq_dataLayout_fixedSize : (strB "dataLayout" == strB "fixedSize") = false := by decide
  have hbq_dataType_fixedSize : (strB "dataType" == strB "fixedSize") = false := by decide
  have hbq_dataWritePos_fixedSize : (strB "dataWritePos" == strB "fixedSize") = false := by decide
  have hbq_fixedSize_fixedSize : (strB "fixedSize" == strB "fixedSize") = true := by decide
  have hbq_dataLayout_gapData : (strB "dataLayout" == strB "gapData") = false := by decide
  have hbq_dataType_gapData : (strB "dataType" == strB "gapData") = false := by decide
  have hbq_dataWritePos_gapData : (strB "dataWritePos" == strB "gapData") = false := by decide
  have hbq_fixedSize_gapData : (strB "fixedSize" == strB "gapData") = false := by decide
  have hbq_gapData_gapData : (strB "gapData" == strB "gapData") = true := by decide
  have hbq_dataLayout_recordSize : (strB "dataLayout" == strB "recordSize") = false := by decide
  have hbq_dataType_recordSize : (strB "dataType" == strB "recordSize") = false := by decide
  have hbq_dataWritePos_recordSize : (strB "dataWritePos" == strB "recordSize") = false := by decide
  have hbq_fixedSize_recordSize : (strB "fixedSize" == strB "recordSize") = false := by decide
  have hbq_gapData_recordSize : (strB "gapData" == strB "recordSize") = false := by decide
  have hbq_recordSize_recordSize : (strB "recordSize" == strB "recordSize") = true := by decide
  have hbq_dataLayout_timeWritePos : (strB "dataLayout" == strB "timeWritePos") = false := by decide
  have hbq_dataType_timeWritePos : (strB "dataType" == strB "timeWritePos") = false := by decide
  have hbq_dataWritePos_timeWritePos : (strB "dataWritePos" == strB "timeWritePos") = false := by decide
  have hbq_fixedSize_timeWritePos : (strB "fixedSize" == strB "timeWritePos") = false := by decide
  have hbq_gapData_timeWritePos : (strB "gapData" == strB "timeWritePos") = false := by decide
  have hbq_recordSize_timeWritePos : (strB "recordSize" == strB "timeWritePos") = false := by decide
  have hbq_timeWritePos_timeWritePos : (strB "timeWritePos" == strB "timeWritePos") = true := by decide
  simp [lookupJ_cons, hbq_dataLayout_dataLayout, hbq_dataLayout_dataType, hbq_dataType_dataType, hbq_dataLayout_dataWritePos, hbq_dataType_dataWritePos, hbq_dataWritePos_dataWritePos, hbq_dataLayout_fixedSize, hbq_dataType_fixedSize, hbq_dataWritePos_fixedSize, hbq_fixedSize_fixedSize, hbq_dataLayout_gapData, hbq_dataType_gapData, hbq_dataWritePos_gapData, hbq_fixedSize_gapData, hbq_gapData_gapData, hbq_dataLayout_recordSize, hbq_dataType_recordSize, hbq_dataWritePos_recordSize, hbq_fixedSize_recordSize, hbq_gapData_recordSize, hbq_recordSize_recordSize, hbq_dataLayout_timeWritePos, hbq_dataType_timeWritePos, hbq_dataWritePos_timeWritePos, hbq_fixedSize_timeWritePos, hbq_gapData_timeWritePos, hbq_recordSize_timeWritePos, hbq_timeWritePos_timeWritePos, jGetStr, jGetNum,
    jGetBool]

theorem writeHeader_contents (log : DataLogImpl) (tOk : Bool)
    (hmap : log.time.map.mapped = true) (hro : log.time.readOnly = false)
    (hmo : log.time.mapOffset = 0) :
    (log.writeHeader tOk true).time.contents =
      writeBytes log.time.contents 0 (headerBuf log) := by
  unfold DataLogImpl.writeHeader
  rw [if_neg (by simp [hmap, hro])]
  exact (fiWrite_mOk log.time 0 (headerBuf log) tOk hmo).1

/-- C6: after `Flush` rewrites the header, the first 4096 bytes of the
time file are exactly the serialized header buffer, and parsing that
buffer recovers precisely the `dataType`, `dataLayout`, `recordSize`,
`fixedSize`, `gapData`, `timeWritePos = time.mapOffset + time.writePos`
and `dataWritePos = data.mapOffset + data.writePos` in effect at the
write, i.e. header serialization is exactly inverted by header parsing
(for ASCII field strings, a header that fits in 4096 bytes, and field
values that fit their C++ member types). -/
theorem claim_C6 (log : DataLogImpl) (tOk : Bool)
    (hmap : log.time.map.mapped = true) (hro : log.time.readOnly = false)
    (hmo : log.time.mapOffset = 0)
    (hdt : ∀ b ∈ log.dataType, b < 128)
    (hdl : ∀ b ∈ log.dataLayout, b < 128)
    (hgd : ∀ b ∈ log.gapData, b < 128)
    (hfit : (headerJson log ++ [10]).length ≤ kHeaderSize)
    (hrs : log.recordSize < 2 ^ 32)
    (htw : log.time.mapOffset + log.time.writePos < 2 ^ 64)
    (hdw : log.data.mapOffset + log.data.writePos < 2 ^ 64) :
    readBytes (log.flush tOk true).time.contents 0 kHeaderSize =
      headerBuf log ∧
    parseHeader (readBytes (log.flush tOk true).time.contents 0
        kHeaderSize) =
      some ⟨log.dataType, log.dataLayout, log.recordSize, log.fixedSize,
        log.gapData, log.time.mapOffset + log.time.writePos,
        log.data.mapOffset + log.data.writePos⟩ := by
  have hw : (log.flush tOk true).time.contents =
      writeBytes log.time.contents 0 (headerBuf log) :=
    writeHeader_contents log tOk hmap hro hmo
  have hread : readBytes (log.flush tOk true).time.contents 0 kHeaderSize =
      headerBuf log := by
    rw [hw]
    have hself := readBytes_writeBytes_self log.time.contents 0
      (headerBuf log)
    rw [headerBuf_length] at hself
    exact hself
  refine ⟨hread, ?_⟩
  rw [hread, parseHeader_headerBuf log hdt hdl hgd hfit]
  rw [Nat.mod_eq_of_lt hrs, Nat.mod_eq_of_lt htw, Nat.mod_eq_of_lt hdw]

set_option maxRecDepth 40000 in
/-- C6 (witness): the theorem applied to the concrete open log `logVar`:
flushing writes the 4096-byte header and parsing it returns the seven
field values of `logVar`. -/
theorem claim_C6_witness :
    readBytes (logVar.flush true true).time.contents 0 kHeaderSize =
      headerBuf logVar ∧
    parseHeader (readBytes (logVar.flush true true).time.contents 0
      kHeaderSize) = some ⟨[], [], 16, false, [35, 35], 4096, 0⟩ := by
  have h := claim_C6 logVar true rfl rfl rfl (by decide) (by decide)
    (by decide) (by decide) (by decide) (by decide) (by decide)
  exact ⟨h.1, h.2⟩

/-! ## Claim C7: protocol checks on open -/

/-- `DataLogImpl::Check` (DataLog.cpp:318-335): `true` iff the configuration
check fails, i.e. the open errors with `wrong_protocol_type`. -/
def DataLogImpl.check (log : DataLogImpl) (dataType dataLayout : Bytes)
    (recordSize : Nat) (checkType checkLayout checkSize : Bool) : Bool :=
  (checkType && !(log.dataType == dataType)) ||
  (checkLayout && !(log.dataLayout == dataLayout)) ||
  (checkSize &&
    ((!(recordSize == 0) &&
        (!log.fixedSize || !(log.recordSize == recordSize))) ||
     ((recordSize == 0) &&
        (log.fixedSize ||
          (!(log.recordSize == kLargePointerRecordSize) &&
           !(log.recordSize == kSmallPointerRecordSize))))))

/-- `DataLogImpl::ReadHeader` (DataLog.cpp:406-432): parse the header
bytes and install the seven fields; any parse failure is the
`wrong_protocol_type` error (`none`). -/
def DataLogImpl.readHeader (log : DataLogImpl) (b : Bytes) :
    Option DataLogImpl :=
  match parseHeader b with
  | none => none
  | some h =>
    let t := { log.time with writePos := h.timeWritePos }
    let d := { log.data with writePos := h.dataWritePos }
    some { log with dataType := h.dataType, dataLayout := h.dataLayout,
                    recordSize := h.recordSize, fixedSize := h.fixedSize,
                    gapData := h.gapData, time := t, data := d }

/-- The existing-file path of `DataLogImpl::DoOpen` (DataLog.cpp:347-357):
`ReadHeader`, then `Check`; `true` iff the open fails with
`wrong_protocol_type`. -/
def DataLogImpl.openCheck (log : DataLogImpl) (b : Bytes)
    (dataType dataLayout : Bytes) (recordSize : Nat)
    (checkType checkLayout checkSize : Bool) : Bool :=
  match log.readHeader b with
  | none => true
  | some lg =>
    lg.check dataType dataLayout recordSize checkType checkLayout checkSize

/-- C7: opening an existing file fails with `wrong_protocol_type` exactly
when the header is missing, malformed or lacks a required key with the
right type (the parse returns `none`), or an enabled check fails:
`checkType` with a differing `dataType`, `checkLayout` with a differing
`dataLayout`, or `checkSize` with a record size that does not match the
constructor argument (a nonzero argument requires a fixed-size log of
that exact record size; a zero argument requires a variable-size log
whose record size is one of the two pointer sizes).  When all enabled
checks pass, the open succeeds. -/
theorem claim_C7 (log : DataLogImpl) (b : Bytes)
    (dataType dataLayout : Bytes) (recordSize : Nat)
    (checkType checkLayout checkSize : Bool) :
    log.openCheck b dataType dataLayout recordSize checkType checkLayout
        checkSize = true ↔
      parseHeader b = none ∨
      ∃ h, parseHeader b = some h ∧
        ((checkType = true ∧ h.dataType ≠ dataType) ∨
         (checkLayout = true ∧ h.dataLayout ≠ dataLayout) ∨
         (checkSize = true ∧
           ((recordSize ≠ 0 ∧
              (h.fixedSize = false ∨ h.recordSize ≠ recordSize)) ∨
            (recordSize = 0 ∧
              (h.fixedSize = true ∨
                (h.recordSize ≠ kLargePointerRecordSize ∧
                 h.recordSize ≠ kSmallPointerRecordSize)))))) := by
  unfold DataLogImpl.openCheck DataLogImpl.readHeader DataLogImpl.check
  cases hp : parseHeader b with
  | none => simp
  | some h =>
    simp only [Option.some.injEq, false_or, exists_eq_left', reduceCtorEq]
    cases checkType <;> cases checkLayout <;> cases checkSize <;>
      cases hfix : h.fixedSize <;>
      simp [hfix, Bool.or_eq_true, Bool.and_eq_true, beq_iff_eq,
        Bool.not_eq_true', and_assoc] <;> tauto

/-! ## Claim C10: WriteHeader writes exactly 4096 bytes -/

/-- A variable-size log whose gap data is 4200 `#` bytes, so the
serialized header exceeds 4096 bytes. -/
def logLong : DataLogImpl :=
  { logVar with gapData := List.replicate 4200 35 }

theorem escape_replicate35 : ∀ n,
    escape (List.replicate n 35) = List.replicate n 35 := by
  intro n
  induction n with
  | zero => rfl
  | succ n ih =>
    have hcons : escape (35 :: List.replicate n 35) =
        escByte 35 ++ escape (List.replicate n 35) := by
      simp [escape]
    rw [List.replicate_succ, hcons, ih,
      show escByte 35 = [35] from by decide]
    rfl

theorem psa_noclose35 : ∀ n,
    parseStringAux (List.replicate n 35) = none := by
  intro n
  induction n with
  | zero => rfl
  | succ n ih =>
    rw [List.replicate_succ, psa_plain 35 _ (by omega) (by omega), ih]
    rfl

theorem parseMembers_chain_none : ∀ (its : List (String × Bytes × JVal))
    (it : String × Bytes × JVal) (f : Nat) (J : Bytes),
    its.length < f →
    (∀ x ∈ it :: its, ∀ b ∈ strB x.1, b < 128) →
    (∀ x ∈ it :: its, ∀ rest : Bytes,
        rest.head? = some 44 ∨ rest.head? = some 10 →
        parseValue (32 :: (x.2.1 ++ rest)) = some (x.2.2, rest)) →
    (∀ g, parseMembers g J = none) →
    parseMembers f (entryB it.1 it.2.1 ++ chainSep (44 :: J) its) =
      none := by
  intro its
  induction its with
  | nil =>
    intro it f J hf hkey hval hJ
    cases f with
    | zero => simp [parseMembers]
    | succ f =>
      rw [chainSep, parseMembers_entry f it.1 it.2.1 it.2.2 (44 :: J)
        (hkey it (List.mem_cons_self _ _))
        (hval it (List.mem_cons_self _ _) (44 :: J) (Or.inl rfl))]
      rw [skipWs_stop 44 _ (by omega)]
      simp [hJ f]
  | cons it2 its ih =>
    intro it f J hf hkey hval hJ
    cases f with
    | zero => simp [parseMembers]
    | succ f =>
      rw [chainSep, parseMembers_entry f it.1 it.2.1 it.2.2
        (44 :: (entryB it2.1 it2.2.1 ++ chainSep (44 :: J) its))
        (hkey it (List.mem_cons_self _ _))
        (hval it (List.mem_cons_self _ _) _ (Or.inl rfl))]
      rw [skipWs_stop 44 _ (by omega)]
      have hrec := ih it2 f J
        (by simp only [List.length_cons] at hf; omega)
        (fun x hx => hkey x (List.mem_cons_of_mem _ hx))
        (fun x hx => hval x (List.mem_cons_of_mem _ hx)) hJ
      simp [hrec]

theorem parseHeader_logLong : parseHeader (headerBuf logLong) = none := by
  have hlist : headerJson logLong ++ [10] =
      (123 :: (entryB "dataLayout" (quoteStr []) ++
        chainSep (44 :: (10 :: 32 :: 34 :: (escape (strB "gapData") ++
            [34, 58, 32, 34])))
          [("dataType", quoteStr [], JVal.str []),
       ("dataWritePos", natToDec 0, JVal.num 0),
       ("fixedSize", boolB false, JVal.boolean false)])) ++
      (List.replicate 4200 35 ++
        (34 :: 44 :: (entryB "recordSize" (natToDec 16) ++
          (44 :: (entryB "timeWritePos" (natToDec 4096) ++
            [10, 125, 10]))))) := by
    simp [-List.reduceReplicate, headerJson, logLong, logVar, fiTimeVar,
      fiDataVar, entryB, quoteStr, chainSep, escape_replicate35,
      List.append_assoc]
  have hp : (123 :: (entryB "dataLayout" (quoteStr []) ++
      chainSep (44 :: (10 :: 32 :: 34 :: (escape (strB "gapData") ++
          [34, 58, 32, 34])))
        [("dataType", quoteStr [], JVal.str []),
       ("dataWritePos", natToDec 0, JVal.num 0),
       ("fixedSize", boolB false, JVal.boolean false)])).length = 92 := by decide
  have hq : (34 :: 44 :: (entryB "recordSize" (natToDec 16) ++
      (44 :: (entryB "timeWritePos" (natToDec 4096) ++
        [10, 125, 10])))).length = 46 := by decide
  have hshape : headerBuf logLong =
      (123 :: (entryB "dataLayout" (quoteStr []) ++
        chainSep (44 :: (10 :: 32 :: 34 :: (escape (strB "gapData") ++
            [34, 58, 32, 34])))
          [("dataType", quoteStr [], JVal.str []),
       ("dataWritePos", natToDec 0, JVal.num 0),
       ("fixedSize", boolB false, JVal.boolean false)])) ++
      List.replicate 4004 35 := by
    rw [headerBuf, resizeTo, hlist]
    have hlen : ((123 :: (entryB "dataLayout" (quoteStr []) ++
        chainSep (44 :: (10 :: 32 :: 34 :: (escape (strB "gapData") ++
            [34, 58, 32, 34])))
          [("dataType", quoteStr [], JVal.str []),
       ("dataWritePos", natToDec 0, JVal.num 0),
       ("fixedSize", boolB false, JVal.boolean false)])) ++
        (List.replicate 4200 35 ++
          (34 :: 44 :: (entryB "recordSize" (natToDec 16) ++
            (44 :: (entryB "timeWritePos" (natToDec 4096) ++
              [10, 125, 10])))))).length = 4338 := by
      simp only [List.length_append, List.length_replicate, hp, hq]
    rw [hlen]
    rw [show kHeaderSize - 4338 = 0 from by decide]
    simp only [List.replicate_zero, List.append_nil]
    rw [show kHeaderSize = (123 :: (entryB "dataLayout" (quoteStr []) ++
        chainSep (44 :: (10 :: 32 :: 34 :: (escape (strB "gapData") ++
            [34, 58, 32, 34])))
          [("dataType", quoteStr [], JVal.str []),
       ("dataWritePos", natToDec 0, JVal.num 0),
       ("fixedSize", boolB false, JVal.boolean false)])).length + 4004 from by
      rw [hp]
      decide]
    rw [List.take_append 4004,
      List.take_append_of_le_length
        (by simp [-List.reduceReplicate]),
      List.take_replicate 35 4004 4200]
    norm_num [-List.reduceReplicate]
  have hwalkC : headerBuf logLong =
      123 :: (entryB "dataLayout" (quoteStr []) ++
        chainSep (44 :: (10 :: 32 :: 34 :: (escape (strB "gapData") ++
        (34 :: 58 :: 32 :: (34 :: List.replicate 4004 35)))))
          [("dataType", quoteStr [], JVal.str []),
       ("dataWritePos", natToDec 0, JVal.num 0),
       ("fixedSize", boolB false, JVal.boolean false)]) := by
    rw [hshape]
    simp [-List.reduceReplicate, chainSep, List.append_assoc]
  have hJn : ∀ g, parseMembers g (10 :: 32 :: 34 :: (escape (strB "gapData") ++
        (34 :: 58 :: 32 :: (34 :: List.replicate 4004 35)))) = none := by
    intro g
    cases g with
    | zero => simp [parseMembers]
    | succ g =>
      have hpv : parseValue (32 :: (34 :: List.replicate 4004 35)) =
          none := by
        rw [parseValue, skipWs_ws 32 _ (by omega),
          skipWs_stop 34 _ (by omega)]
        simp [-List.reduceReplicate, psa_noclose35]
      have hs1 : skipWs (10 :: 32 :: 34 :: (escape (strB "gapData") ++
        (34 :: 58 :: 32 :: (34 :: List.replicate 4004 35)))) =
          34 :: (escape (strB "gapData") ++
            (34 :: 58 :: 32 :: (34 :: List.replicate 4004 35))) := by
        rw [skipWs_ws 10 _ (by omega), skipWs_ws 32 _ (by omega),
          skipWs_stop 34 _ (by omega)]
      have hstr := escape_parse (strB "gapData") (by decide)
        (58 :: 32 :: (34 :: List.replicate 4004 35))
      have hs2 : skipWs (58 :: 32 :: (34 :: List.replicate 4004 35)) =
          58 :: (32 :: (34 :: List.replicate 4004 35)) :=
        skipWs_stop 58 _ (by omega)
      simp only [parseMembers]
      simp [-List.reduceReplicate, hs1, hstr, hs2, hpv]
  have hchainN := parseMembers_chain_none
    [("dataType", quoteStr [], JVal.str []),
       ("dataWritePos", natToDec 0, JVal.num 0),
       ("fixedSize", boolB false, JVal.boolean false)]
    ("dataLayout", quoteStr [], JVal.str []) (kHeaderSize + 1)
    (10 :: 32 :: 34 :: (escape (strB "gapData") ++
        (34 :: 58 :: 32 :: (34 :: List.replicate 4004 35))))
    (by simp [kHeaderSize])
    (by
      intro x hx
      simp only [List.mem_cons, List.not_mem_nil, or_false] at hx
      rcases hx with rfl | rfl | rfl | rfl
      · exact (by decide : ∀ b ∈ strB "dataLayout", b < 128)
      · exact (by decide : ∀ b ∈ strB "dataType", b < 128)
      · exact (by decide : ∀ b ∈ strB "dataWritePos", b < 128)
      · exact (by decide : ∀ b ∈ strB "fixedSize", b < 128))
    (by
      have hnum : ∀ (n : Nat) (rest : Bytes),
          rest.head? = some 44 ∨ rest.head? = some 10 →
          parseValue (32 :: (natToDec n ++ rest)) =
            some (JVal.num n, rest) := by
        intro n rest hrest
        refine parseValue_num n rest ?_
        intro c r' hcr
        subst hcr
        simp only [List.head?_cons, Option.some.injEq] at hrest
        omega
      intro x hx
      simp only [List.mem_cons, List.not_mem_nil, or_false] at hx
      rcases hx with rfl | rfl | rfl | rfl
      · exact fun rest _ => parseValue_str [] rest (by decide)
      · exact fun rest _ => parseValue_str [] rest (by decide)
      · exact hnum 0
      · exact fun rest _ => parseValue_bool false rest)
    hJn
  have htop : parseTopObject (headerBuf logLong) = none := by
    rw [parseTopObject, headerBuf_length, hwalkC,
      skipWs_stop 123 _ (by omega)]
    simp only [skipWs_entry]
    simp [-List.reduceReplicate, hchainN]
  rw [parseHeader, htop]

/-- C10: whenever the time file is mapped and not read-only, `WriteHeader`
writes exactly 4096 bytes at offset 0 of the time file — the serialized
JSON plus a trailing newline, zero-padded up to 4096 bytes when shorter
and silently cut off at 4096 bytes when longer — leaving the rest of the
file untouched; when the time file is unmapped or read-only it writes
nothing; and a truncated header (the concrete `logLong`, whose gap data
makes the serialization exceed 4096 bytes) is unparseable. -/
theorem claim_C10 (log : DataLogImpl) (tOk : Bool) :
    (log.time.map.mapped = true → log.time.readOnly = false →
      log.time.mapOffset = 0 →
      (log.writeHeader tOk true).time.contents =
        writeBytes log.time.contents 0 (headerBuf log) ∧
      (headerBuf log).length = kHeaderSize ∧
      readBytes (log.writeHeader tOk true).time.contents 0 kHeaderSize =
        headerBuf log ∧
      (∀ i, kHeaderSize ≤ i →
        (log.writeHeader tOk true).time.contents i =
          log.time.contents i) ∧
      ((headerJson log ++ [10]).length ≤ kHeaderSize →
        headerBuf log = (headerJson log ++ [10]) ++
          List.replicate (kHeaderSize - (headerJson log ++ [10]).length)
            0) ∧
      (kHeaderSize ≤ (headerJson log ++ [10]).length →
        headerBuf log = (headerJson log ++ [10]).take kHeaderSize)) ∧
    (log.time.map.mapped = false ∨ log.time.readOnly = true →
      log.writeHeader tOk true = log) ∧
    parseHeader (headerBuf logLong) = none := by
  refine ⟨?_, ?_, parseHeader_logLong⟩
  · intro hmap hro hmo
    have hw := writeHeader_contents log tOk hmap hro hmo
    refine ⟨hw, headerBuf_length log, ?_, ?_, ?_, ?_⟩
    · rw [hw]
      have hself := readBytes_writeBytes_self log.time.contents 0
        (headerBuf log)
      rw [headerBuf_length] at hself
      exact hself
    · intro i hi
      rw [hw]
      exact writeBytes_ge (by rw [headerBuf_length]; omega)
    · intro hfit
      rw [headerBuf, resizeTo, List.take_of_length_le hfit]
    · intro hlong
      have h0 : kHeaderSize - (headerJson log ++ [10]).length = 0 := by
        omega
      rw [headerBuf, resizeTo, h0]
      simp [-List.reduceReplicate]
  · intro h
    unfold DataLogImpl.writeHeader
    rw [if_pos h]

set_option maxRecDepth 40000 in
/-- C10 (witness): the theorem applied at concrete logs: on the open
mapped `logVar` the write is exactly the 4096-byte header buffer at
offset 0; on the read-only `logExRO` nothing is written; and the
truncated header of `logLong` does not parse. -/
theorem claim_C10_witness :
    readBytes (logVar.writeHeader true true).time.contents 0 kHeaderSize =
      headerBuf logVar ∧
    (logVar.writeHeader true true).time.contents kHeaderSize =
      logVar.time.contents kHeaderSize ∧
    headerBuf logVar = (headerJson logVar ++ [10]) ++
      List.replicate (kHeaderSize - (headerJson logVar ++ [10]).length)
        0 ∧
    logExRO.writeHeader true true = logExRO ∧
    parseHeader (headerBuf logLong) = none := by
  have h1 := (claim_C10 logVar true).1 rfl rfl rfl
  have h2 := (claim_C10 logExRO true).2.1 (Or.inr rfl)
  have h3 := (claim_C10 logVar true).2.2
  exact ⟨h1.2.2.1, h1.2.2.2.1 kHeaderSize (le_refl _),
    h1.2.2.2.2.1 (by decide), h2, h3⟩

end WpiLog
